import Mathlib

/-!
Verification of the CoralSwap SDK core (AMM quote math, routing, retry/polling,
error classification) against a shallow embedding of its TypeScript source.

Conventions used throughout this development:
* JS `bigint` values that are nonnegative on every reachable path are modelled
  as `Nat`; JS `bigint` division truncates toward zero, which coincides with
  `Nat` floor division on nonnegative operands.
* A function that can `throw` is modelled as returning `Option` (`none` is the
  thrown exception).  JS `bigint` division by zero throws a `RangeError`; it is
  likewise modelled as `none`.
-/

/-- AMM exact-in quote, `SwapModule.getAmountOut` from `src/contracts/pair.ts`.
Preconditions (`amountIn <= 0`, empty reserves) throw in the source and yield
`none` here.  `feeBps` is a `number` in `[0,10000]` read from the chain; the
`Nat` subtraction `10000 - feeBps` agrees with the source for `feeBps ≤ 10000`,
the only range the SDK can observe. -/
def getAmountOut (amountIn reserveIn reserveOut feeBps : Nat) : Option Nat :=
  if amountIn ≤ 0 then none
  else if reserveIn ≤ 0 ∨ reserveOut ≤ 0 then none
  else
    let feeFactor := 10000 - feeBps
    let amountInWithFee := amountIn * feeFactor
    let numerator := amountInWithFee * reserveOut
    let denominator := reserveIn * 10000 + amountInWithFee
    some (numerator / denominator)

/-- AMM exact-out quote, `SwapModule.getAmountIn` from `src/contracts/pair.ts`.
The source has no explicit check on the denominator: when
`(reserveOut - amountOut) * feeFactor = 0` (i.e. `feeBps = 10000`) the JS
`bigint` division throws a `RangeError`, modelled by the `denominator = 0`
branch returning `none`. -/
def getAmountIn (amountOut reserveIn reserveOut feeBps : Nat) : Option Nat :=
  if amountOut ≤ 0 then none
  else if reserveIn ≤ 0 ∨ reserveOut ≤ 0 then none
  else if amountOut ≥ reserveOut then none
  else
    let feeFactor := 10000 - feeBps
    let numerator := reserveIn * amountOut * 10000
    let denominator := (reserveOut - amountOut) * feeFactor
    if denominator = 0 then none
    else some (numerator / denominator + 1)

theorem getAmountOut_eq (aIn rIn rOut fee : Nat)
    (ha : 0 < aIn) (hri : 0 < rIn) (hro : 0 < rOut) :
    getAmountOut aIn rIn rOut fee =
      some (aIn * (10000 - fee) * rOut / (rIn * 10000 + aIn * (10000 - fee))) := by
  have h1 : ¬ (aIn ≤ 0) := by omega
  have h2 : ¬ (rIn ≤ 0 ∨ rOut ≤ 0) := by omega
  simp [getAmountOut, h1, h2]
  omega

/-- Core bound for the exact-in formula: the quoted output times
`reserveIn + amountIn` never exceeds `amountIn * reserveOut`. -/
theorem amm_out_key (aIn rIn rOut fee : Nat) (hri : 0 < rIn) (hfee : fee ≤ 10000) :
    (aIn * (10000 - fee) * rOut / (rIn * 10000 + aIn * (10000 - fee))) * (rIn + aIn)
      ≤ aIn * rOut := by
  set f := 10000 - fee with hf
  set den := rIn * 10000 + aIn * f with hden
  have hden0 : 0 < den := by
    have : 0 < rIn * 10000 := Nat.mul_pos hri (by norm_num)
    calc 0 < rIn * 10000 := this
      _ ≤ den := by rw [hden]; exact Nat.le_add_right _ _
  by_cases hf0 : f = 0
  · simp [hf0]
  · have hfpos : 0 < f := Nat.pos_of_ne_zero hf0
    set q := aIn * f * rOut / den with hq
    have hq1 : q * den ≤ aIn * f * rOut := Nat.div_mul_le_self _ _
    have hle : f * (rIn + aIn) ≤ den := by
      have hfub : f ≤ 10000 := by omega
      have hfr : f * rIn ≤ rIn * 10000 := by
        calc f * rIn ≤ 10000 * rIn := Nat.mul_le_mul_right _ hfub
          _ = rIn * 10000 := Nat.mul_comm _ _
      calc f * (rIn + aIn) = f * rIn + f * aIn := Nat.mul_add _ _ _
        _ ≤ rIn * 10000 + aIn * f := by
            have : f * aIn = aIn * f := Nat.mul_comm _ _
            omega
        _ = den := hden.symm
    have h2 : q * (f * (rIn + aIn)) ≤ aIn * f * rOut :=
      le_trans (Nat.mul_le_mul_left _ hle) hq1
    have h3 : f * (q * (rIn + aIn)) ≤ f * (aIn * rOut) := by
      calc f * (q * (rIn + aIn)) = q * (f * (rIn + aIn)) := by ring
        _ ≤ aIn * f * rOut := h2
        _ = f * (aIn * rOut) := by ring
    exact Nat.le_of_mul_le_mul_left h3 hfpos

/-- The exact-in quote is strictly below the output reserve. -/
theorem amm_out_lt (aIn rIn rOut fee : Nat)
    (ha : 0 < aIn) (hri : 0 < rIn) (hro : 0 < rOut) (hfee : fee ≤ 10000) :
    aIn * (10000 - fee) * rOut / (rIn * 10000 + aIn * (10000 - fee)) < rOut := by
  set q := aIn * (10000 - fee) * rOut / (rIn * 10000 + aIn * (10000 - fee)) with hq
  have key := amm_out_key aIn rIn rOut fee hri hfee
  have h1 : aIn * rOut < (rIn + aIn) * rOut := by
    have : 0 < rIn * rOut := Nat.mul_pos hri hro
    calc aIn * rOut < rIn * rOut + aIn * rOut := by omega
      _ = (rIn + aIn) * rOut := (Nat.add_mul _ _ _).symm
  have h2 : q * (rIn + aIn) < rOut * (rIn + aIn) := by
    calc q * (rIn + aIn) ≤ aIn * rOut := key
      _ < (rIn + aIn) * rOut := h1
      _ = rOut * (rIn + aIn) := Nat.mul_comm _ _
  exact lt_of_mul_lt_mul_right h2 (Nat.zero_le _)

/-- C1: for every positive `amountIn`, positive reserves and `feeBps ∈ [0,10000]`
(values within the 128-bit signed width of the host chain), the output of
`getAmountOut` satisfies
`(reserveIn + amountIn) * (reserveOut - output) ≥ reserveIn * reserveOut`:
the constant product never decreases. -/
theorem C1_constant_product (amountIn reserveIn reserveOut feeBps : Nat)
    (h1 : 0 < amountIn) (h2 : 0 < reserveIn) (h3 : 0 < reserveOut)
    (h4 : feeBps ≤ 10000)
    (h5 : amountIn < 2 ^ 127) (h6 : reserveIn < 2 ^ 127) (h7 : reserveOut < 2 ^ 127) :
    ∃ output, getAmountOut amountIn reserveIn reserveOut feeBps = some output ∧
      reserveIn * reserveOut ≤ (reserveIn + amountIn) * (reserveOut - output) := by
  refine ⟨_, getAmountOut_eq amountIn reserveIn reserveOut feeBps h1 h2 h3, ?_⟩
  set out := amountIn * (10000 - feeBps) * reserveOut /
    (reserveIn * 10000 + amountIn * (10000 - feeBps)) with hout
  have key := amm_out_key amountIn reserveIn reserveOut feeBps h2 h4
  have hlt : out < reserveOut := amm_out_lt amountIn reserveIn reserveOut feeBps h1 h2 h3 h4
  obtain ⟨s, hs⟩ : ∃ s, reserveOut = out + s := ⟨reserveOut - out, by omega⟩
  have hsub : reserveOut - out = s := by omega
  rw [hsub]
  have key' : out * reserveIn + out * amountIn ≤ amountIn * out + amountIn * s := by
    calc out * reserveIn + out * amountIn = out * (reserveIn + amountIn) := by ring
      _ ≤ amountIn * reserveOut := key
      _ = amountIn * out + amountIn * s := by rw [hs]; ring
  have hmain : out * reserveIn ≤ amountIn * s := by
    have hcomm : out * amountIn = amountIn * out := Nat.mul_comm _ _
    omega
  calc reserveIn * reserveOut = reserveIn * out + reserveIn * s := by rw [hs]; ring
    _ ≤ amountIn * s + reserveIn * s := by
        have : reserveIn * out = out * reserveIn := Nat.mul_comm _ _
        omega
    _ = (reserveIn + amountIn) * s := by ring

/-- C1 witness at a concrete input. -/
theorem C1_constant_product_witness :
    ∃ output, getAmountOut 5000 10000 10000 30 = some output ∧
      10000 * 10000 ≤ (10000 + 5000) * (10000 - output) :=
  C1_constant_product 5000 10000 10000 30 (by norm_num) (by norm_num) (by norm_num)
    (by norm_num) (by norm_num) (by norm_num) (by norm_num)

/-- C10: a single exact-in quote always returns an output in `[0, reserveOut)`:
it can never drain or exceed the pool's output reserve. -/
theorem C10_output_bounded (amountIn reserveIn reserveOut feeBps : Nat)
    (h1 : 0 < amountIn) (h2 : 0 < reserveIn) (h3 : 0 < reserveOut)
    (h4 : feeBps ≤ 10000) :
    ∃ output, getAmountOut amountIn reserveIn reserveOut feeBps = some output ∧
      0 ≤ output ∧ output < reserveOut := by
  refine ⟨_, getAmountOut_eq amountIn reserveIn reserveOut feeBps h1 h2 h3, Nat.zero_le _, ?_⟩
  exact amm_out_lt amountIn reserveIn reserveOut feeBps h1 h2 h3 h4

/-- C10 witness at a concrete input. -/
theorem C10_output_bounded_witness :
    ∃ output, getAmountOut 123456 1000 2000 500 = some output ∧
      0 ≤ output ∧ output < 2000 :=
  C10_output_bounded 123456 1000 2000 500 (by norm_num) (by norm_num) (by norm_num)
    (by norm_num)

/-- C3 as frozen quantifies over `feeBps ∈ [0,10000]`; at `feeBps = 10000` the
source `getAmountIn` divides by zero (JS `RangeError`), so no round trip exists.
This closed theorem exhibits the failure at `amountOut = 1`, `reserveIn = 1`,
`reserveOut = 2`, `feeBps = 10000`, inputs satisfying every hypothesis of the
claim. -/
theorem C3_roundtrip_counterexample :
    getAmountIn 1 1 2 10000 = none ∧
    ¬ ∃ x y, getAmountIn 1 1 2 10000 = some x ∧
      getAmountOut x 1 2 10000 = some y ∧ 1 ≤ y := by
  refine ⟨by decide, ?_⟩
  rintro ⟨x, y, hx, -, -⟩
  simp [getAmountIn] at hx

/-- C3 (amended to `feeBps ∈ [0,9999]`, the range where the exact-out formula
is defined): feeding `getAmountIn`'s result back into `getAmountOut` with the
same reserves and fee yields at least the requested `amountOut` — the `+1`
ceiling bias never under-delivers. -/
theorem C3_roundtrip (amountOut reserveIn reserveOut feeBps : Nat)
    (h1 : 0 < reserveIn) (h2 : 0 < reserveOut) (h3 : feeBps ≤ 9999)
    (h4 : 0 < amountOut) (h5 : amountOut < reserveOut) :
    ∃ x y, getAmountIn amountOut reserveIn reserveOut feeBps = some x ∧
      getAmountOut x reserveIn reserveOut feeBps = some y ∧ amountOut ≤ y := by
  set f := 10000 - feeBps with hf
  have hfpos : 0 < f := by omega
  set N := reserveIn * amountOut * 10000 with hN
  set D := (reserveOut - amountOut) * f with hD
  have hDpos : 0 < D := Nat.mul_pos (by omega) hfpos
  set x := N / D + 1 with hx
  have hxval : getAmountIn amountOut reserveIn reserveOut feeBps = some x := by
    have c1 : ¬ (amountOut ≤ 0) := by omega
    have c2 : ¬ (reserveIn ≤ 0 ∨ reserveOut ≤ 0) := by omega
    have c3 : ¬ (amountOut ≥ reserveOut) := by omega
    have c4 : ¬ ((reserveOut - amountOut) * (10000 - feeBps) = 0) := by
      have := hDpos
      rw [hD, hf] at this
      omega
    simp [getAmountIn, c1, c2, c3, c4]
    omega
  have hxpos : 0 < x := by rw [hx]; exact Nat.succ_pos _
  refine ⟨x, _, hxval, getAmountOut_eq x reserveIn reserveOut feeBps hxpos h1 h2, ?_⟩
  -- N < D * x
  have hNlt : N < D * x := by
    have hmod : N % D < D := Nat.mod_lt _ hDpos
    have hdm := Nat.div_add_mod N D
    calc N = D * (N / D) + N % D := hdm.symm
      _ < D * (N / D) + D := Nat.add_lt_add_left hmod _
      _ = D * (N / D + 1) := by ring
      _ = D * x := by rw [hx]
  -- conclude amountOut ≤ quoted output
  have hden0 : 0 < reserveIn * 10000 + x * f := by
    have : 0 < reserveIn * 10000 := Nat.mul_pos h1 (by norm_num)
    omega
  rw [← hf]
  rw [Nat.le_div_iff_mul_le hden0]
  -- amountOut * (reserveIn * 10000 + x * f) ≤ x * f * reserveOut
  obtain ⟨s, hs⟩ : ∃ s, reserveOut = amountOut + s := ⟨reserveOut - amountOut, by omega⟩
  have hsub : reserveOut - amountOut = s := by omega
  have hNlt' : reserveIn * amountOut * 10000 < x * s * f := by
    calc reserveIn * amountOut * 10000 = N := by rw [hN]
      _ < D * x := hNlt
      _ = (reserveOut - amountOut) * f * x := by rw [hD]
      _ = x * s * f := by rw [hsub]; ring
  calc amountOut * (reserveIn * 10000 + x * f)
      = reserveIn * amountOut * 10000 + amountOut * (x * f) := by ring
    _ ≤ x * s * f + amountOut * (x * f) := by omega
    _ = x * f * (amountOut + s) := by ring
    _ = x * f * reserveOut := by rw [hs]

/-- C3 witness at a concrete input. -/
theorem C3_roundtrip_witness :
    ∃ x y, getAmountIn 100 1000 1000 30 = some x ∧
      getAmountOut x 1000 1000 30 = some y ∧ 100 ≤ y :=
  C3_roundtrip 100 1000 1000 30 (by norm_num) (by norm_num) (by norm_num)
    (by norm_num) (by norm_num)

/-- Character-level prefix test (does the first list head the second?). -/
def charsLead : List Char → List Char → Bool
  | [], _ => true
  | _ :: _, [] => false
  | a :: as, b :: bs => a == b && charsLead as bs

/-- Character-level containment test: does `sub` occur contiguously in the
second list?  Implements JS `String.prototype.includes`. -/
def charsContain (sub : List Char) : List Char → Bool
  | [] => sub.isEmpty
  | c :: t => charsLead sub (c :: t) || charsContain sub t

/-- Substring test, JS `s.includes(sub)`. -/
def includesStr (s sub : String) : Bool := charsContain sub.toList s.toList

/-- Shape of the raw failure value inspected by `withRetry`
(`src/utils/retry.ts`): `err?.response?.status`, `err?.code`, `err?.message`,
each possibly absent. -/
structure JsFailure where
  status : Option Nat
  code : Option String
  msg : Option String
  deriving DecidableEq

/-- Retryability test from the body of `withRetry`
(`status === 429 || status === 503 || err?.code === "ECONNABORTED" ||
err?.code === "ETIMEDOUT" || err?.message?.includes("timeout")`). -/
def isRetryable (e : JsFailure) : Bool :=
  e.status == some 429 || e.status == some 503 ||
  e.code == some "ECONNABORTED" || e.code == some "ETIMEDOUT" ||
  (match e.msg with
   | some m => includesStr m "timeout"
   | none => false)

/-- Options for the retry policy (`RetryOptions` in `src/utils/retry.ts`). -/
structure RetryOptions where
  maxRetries : Nat
  retryDelayMs : Nat
  maxRetryDelayMs : Nat
  deriving DecidableEq

/-- Execution trace of the `for` loop of `withRetry`.  `fn i` is the outcome of
the i-th invocation of the wrapped operation (the source's 0-indexed
`attempt`); the first `Nat` argument `remaining = maxRetries - attempt` counts
the retries still allowed, so the source guard
`!isRetryable || attempt === maxRetries` (throw the error) is `remaining = 0`
or a non-retryable error here.  The result records the returned value or the
propagated error, the number of invocations performed, and the list of
pre-jitter backoff delays `min(maxRetryDelayMs, retryDelayMs * 2^attempt)`
awaited between attempts (the random jitter added on top is not modelled).
The trailing `throw lastError` of the source after the loop is unreachable
(the final iteration always returns or throws) and has no counterpart here. -/
def retryLoop {T : Type} (fn : Nat → Except JsFailure T)
    (retryDelayMs maxRetryDelayMs : Nat) :
    Nat → Nat → Except JsFailure T × Nat × List Nat
  | 0, attempt =>
    (match fn attempt with
     | .ok v => (.ok v, 1, [])
     | .error e => (.error e, 1, []))
  | remaining + 1, attempt =>
    (match fn attempt with
     | .ok v => (.ok v, 1, [])
     | .error e =>
       if isRetryable e then
         let backoff := min maxRetryDelayMs (retryDelayMs * 2 ^ attempt)
         let rest := retryLoop fn retryDelayMs maxRetryDelayMs remaining (attempt + 1)
         (rest.1, rest.2.1 + 1, backoff :: rest.2.2)
       else (.error e, 1, []))

/-- Entry point of `withRetry`: the loop starts at `attempt = 0` with
`maxRetries` retries still allowed. -/
def withRetry {T : Type} (fn : Nat → Except JsFailure T) (o : RetryOptions) :
    Except JsFailure T × Nat × List Nat :=
  retryLoop fn o.retryDelayMs o.maxRetryDelayMs o.maxRetries 0

/-- Connection-reset failure, as produced by the Node runtime. -/
def connResetFailure : JsFailure :=
  ⟨none, some "ECONNRESET", some "socket hang up"⟩

/-- Timeout failure whose message contains the substring checked by the source. -/
def timeoutFailure : JsFailure :=
  ⟨none, some "ETIMEDOUT", some "connect timeout reached"⟩

theorem timeoutFailure_retryable : isRetryable timeoutFailure = true := by decide

/-- C4 counterexample: the claim counts connection reset, connection refused and
host not-found among the retryable conditions, but `withRetry` retries only on
status 429/503, codes ECONNABORTED/ETIMEDOUT, or a message containing
"timeout".  A connection-reset failure with `maxRetries = 2` (attempts remain)
is invoked exactly once and propagated immediately — never retried. -/
theorem C4_retry_counterexample :
    withRetry (T := Nat) (fun _ => .error connResetFailure) ⟨2, 5, 1000⟩
      = (.error connResetFailure, 1, []) ∧
    ¬ 2 ≤ (withRetry (T := Nat) (fun _ => .error connResetFailure) ⟨2, 5, 1000⟩).2.1 := by
  constructor
  · rfl
  · decide

/-- C4 (amended): a failure is retried exactly when `isRetryable` holds of it —
HTTP status 429 (rate-limit) or 503 (service unavailable), Node codes
ECONNABORTED or ETIMEDOUT, or a message containing "timeout" — and attempts
remain; every other failure is propagated immediately without any further
invocation, as is a retryable failure on the final allowed attempt. -/
theorem C4_retry_classification {T : Type} (fn : Nat → Except JsFailure T)
    (base maxD remaining attempt : Nat) (e : JsFailure)
    (hfn : fn attempt = .error e) :
    (isRetryable e = false →
      retryLoop fn base maxD remaining attempt = (.error e, 1, [])) ∧
    (∀ r, isRetryable e = true → remaining = r + 1 →
      retryLoop fn base maxD remaining attempt =
        ((retryLoop fn base maxD r (attempt + 1)).1,
         (retryLoop fn base maxD r (attempt + 1)).2.1 + 1,
         min maxD (base * 2 ^ attempt) :: (retryLoop fn base maxD r (attempt + 1)).2.2)) ∧
    (isRetryable e = true → remaining = 0 →
      retryLoop fn base maxD remaining attempt = (.error e, 1, [])) := by
  refine ⟨?_, ?_, ?_⟩
  · intro hnr
    cases remaining with
    | zero => simp [retryLoop, hfn]
    | succ r => simp [retryLoop, hfn, hnr]
  · intro r hr hrem
    subst hrem
    simp [retryLoop, hfn, hr]
  · intro hr hrem
    subst hrem
    simp [retryLoop, hfn]

/-- C4 witness: a retryable timeout failure at attempt 0 with two retries left
leads to a further invocation of the loop. -/
theorem C4_retry_classification_witness :
    retryLoop (T := Nat) (fun _ => .error timeoutFailure) 5 1000 2 0 =
      ((retryLoop (T := Nat) (fun _ => .error timeoutFailure) 5 1000 1 1).1,
       (retryLoop (T := Nat) (fun _ => .error timeoutFailure) 5 1000 1 1).2.1 + 1,
       min 1000 (5 * 2 ^ 0) :: (retryLoop (T := Nat) (fun _ => .error timeoutFailure) 5 1000 1 1).2.2) :=
  (C4_retry_classification (fun _ => .error timeoutFailure) 5 1000 2 0 timeoutFailure
    rfl).2.1 1 timeoutFailure_retryable rfl

/-- Helper for C6: when every invocation fails with a retryable error, the loop
with `remaining` retries left starting at `attempt` performs `remaining + 1`
invocations, waits the capped doubling backoff before each retry, and
propagates the error observed on the final invocation. -/
theorem retryLoop_all_fail {T : Type} (fn : Nat → Except JsFailure T)
    (e : Nat → JsFailure) (base maxD : Nat)
    (herr : ∀ i, fn i = .error (e i))
    (hretry : ∀ i, isRetryable (e i) = true) :
    ∀ remaining attempt,
      retryLoop fn base maxD remaining attempt =
        (.error (e (attempt + remaining)), remaining + 1,
         (List.range remaining).map (fun i => min maxD (base * 2 ^ (attempt + i)))) := by
  intro remaining
  induction remaining with
  | zero =>
    intro attempt
    simp [retryLoop, herr attempt]
  | succ r ih =>
    intro attempt
    rw [retryLoop]
    rw [herr attempt]
    simp only [hretry attempt, if_true]
    rw [ih (attempt + 1)]
    refine congrArg₂ _ ?_ (congrArg₂ _ rfl ?_)
    · have h : attempt + 1 + r = attempt + (r + 1) := by omega
      rw [h]
    · rw [List.range_succ_eq_map]
      simp only [List.map_cons, List.map_map]
      refine congrArg₂ _ (by rw [Nat.add_zero]) ?_
      apply List.map_congr_left
      intro i _
      simp only [Function.comp_apply]
      have h : attempt + 1 + i = attempt + (i + 1) := by omega
      rw [h]

/-- C6: for every `RetryOptions` and every operation failing with a retryable
error on each call, `withRetry` invokes the operation exactly
`maxRetries + 1` times, the pre-jitter delay before retry `i` (0-indexed) is
`min(maxRetryDelayMs, retryDelayMs * 2^i)` (the source's backoff multiplier is
the fixed constant 2), and the error finally propagated is the error observed
on the last invocation itself. -/
theorem C6_retry_exhaustion {T : Type} (o : RetryOptions)
    (fn : Nat → Except JsFailure T) (e : Nat → JsFailure)
    (herr : ∀ i, fn i = .error (e i))
    (hretry : ∀ i, isRetryable (e i) = true) :
    withRetry fn o =
      (.error (e o.maxRetries), o.maxRetries + 1,
       (List.range o.maxRetries).map
         (fun i => min o.maxRetryDelayMs (o.retryDelayMs * 2 ^ i))) := by
  have h := retryLoop_all_fail fn e o.retryDelayMs o.maxRetryDelayMs herr hretry
    o.maxRetries 0
  simpa [withRetry] using h

/-- C6 witness: with `maxRetries = 2`, `retryDelayMs = 5` and the source's
multiplier 2, a permanently failing retryable operation is invoked exactly
3 times with pre-jitter delays 5 and 10. -/
theorem C6_retry_exhaustion_witness :
    withRetry (T := Nat) (fun _ => .error timeoutFailure) ⟨2, 5, 1000⟩ =
      (.error timeoutFailure, 3, [5, 10]) := by
  have h := C6_retry_exhaustion (T := Nat) ⟨2, 5, 1000⟩
    (fun _ => .error timeoutFailure) (fun _ => timeoutFailure)
    (fun _ => rfl) (fun _ => timeoutFailure_retryable)
  rw [h]
  rfl

/-- Polling strategy (`PollingStrategy` in `src/utils/retry.ts`). -/
inductive PollingStrategy
  | LINEAR
  | EXPONENTIAL
  deriving DecidableEq

/-- Configuration of `TransactionPoller.poll`, with the optional fields already
resolved to their defaults (LINEAR, 1000, 30, 2, 10000). -/
structure PollingOptions where
  strategy : PollingStrategy
  interval : Nat
  maxAttempts : Nat
  backoffFactor : Nat
  maxInterval : Nat
  deriving DecidableEq

/-- Outcome of one status probe (`server.getTransaction`): an on-chain SUCCESS
with its ledger, an on-chain FAILED, a NOT_FOUND (still pending/unseen)
status, or a thrown transport/RPC error. -/
inductive ProbeOutcome
  | success (ledger : Nat)
  | failed
  | notFound
  | rpcError
  deriving DecidableEq

/-- Terminal result of `TransactionPoller.poll`: a confirmed transaction with
its ledger, or a failure `Result` carrying an error code string
("TX_FAILED" or "TX_TIMEOUT"). -/
inductive PollOutcome
  | confirmed (ledger : Nat)
  | failure (code : String)
  deriving DecidableEq

/-- Classifies a probe outcome as terminal (with the result `poll` returns for
it) or still-pending (`none`): SUCCESS and FAILED are terminal; NOT_FOUND and
a thrown probe error both leave the loop running. -/
def terminalResult : ProbeOutcome → Option PollOutcome
  | .success l => some (.confirmed l)
  | .failed => some (.failure "TX_FAILED")
  | .notFound => none
  | .rpcError => none

/-- Execution trace of the polling loop of `TransactionPoller.poll`
(`src/utils/retry.ts`).  `probe i` is the outcome of the status probe on the
source's 1-indexed attempt `i`; the first `Nat` argument
`remaining = maxAttempts - attempt` counts the attempts left after the current
one, so the source's wait-guard `attempt < maxAttempts` is `remaining ≠ 0`
here.  The current inter-poll interval is threaded through; under the
EXPONENTIAL strategy it becomes `min(currentInterval * backoffFactor,
maxInterval)` after each wait, under LINEAR it is unchanged.  The result
records `poll`'s outcome, the number of probes issued, and the total time
awaited between probes. -/
def pollLoop (probe : Nat → ProbeOutcome) (strategy : PollingStrategy)
    (backoffFactor maxInterval : Nat) :
    Nat → Nat → Nat → PollOutcome × Nat × Nat
  | 0, attempt, _ =>
    (match terminalResult (probe attempt) with
     | some t => (t, 1, 0)
     | none => (.failure "TX_TIMEOUT", 1, 0))
  | remaining + 1, attempt, currentInterval =>
    (match terminalResult (probe attempt) with
     | some t => (t, 1, 0)
     | none =>
       let next := if strategy = .EXPONENTIAL
         then min (currentInterval * backoffFactor) maxInterval
         else currentInterval
       let rest := pollLoop probe strategy backoffFactor maxInterval
         remaining (attempt + 1) next
       (rest.1, rest.2.1 + 1, rest.2.2 + currentInterval))

/-- Entry point of `TransactionPoller.poll`: attempts run from 1 to
`maxAttempts`; with `maxAttempts = 0` the loop body never runs and the result
is the timeout `Result`. -/
def poll (probe : Nat → ProbeOutcome) (o : PollingOptions) :
    PollOutcome × Nat × Nat :=
  match o.maxAttempts with
  | 0 => (.failure "TX_TIMEOUT", 0, 0)
  | n + 1 => pollLoop probe o.strategy o.backoffFactor o.maxInterval n 1 o.interval

/-- Helper: the loop issues at most `remaining + 1` probes. -/
theorem pollLoop_probes_le (probe : Nat → ProbeOutcome) (strategy : PollingStrategy)
    (backoffFactor maxInterval : Nat) :
    ∀ remaining attempt currentInterval,
      (pollLoop probe strategy backoffFactor maxInterval
        remaining attempt currentInterval).2.1 ≤ remaining + 1 := by
  intro remaining
  induction remaining with
  | zero =>
    intro attempt cur
    rw [pollLoop]
    cases terminalResult (probe attempt) <;> simp
  | succ r ih =>
    intro attempt cur
    rw [pollLoop]
    cases terminalResult (probe attempt) with
    | none =>
      simp only []
      have h := ih (attempt + 1)
        (if strategy = .EXPONENTIAL then min (cur * backoffFactor) maxInterval else cur)
      omega
    | some t => simp

/-- Helper: if the first `j` probes from `attempt` are pending and probe
`attempt + j` is terminal, the loop returns that terminal result after exactly
`j + 1` probes. -/
theorem pollLoop_terminal (probe : Nat → ProbeOutcome) (strategy : PollingStrategy)
    (backoffFactor maxInterval : Nat) :
    ∀ j remaining attempt currentInterval t, j ≤ remaining →
      (∀ k, attempt ≤ k → k < attempt + j → terminalResult (probe k) = none) →
      terminalResult (probe (attempt + j)) = some t →
      ∃ w, pollLoop probe strategy backoffFactor maxInterval
        remaining attempt currentInterval = (t, j + 1, w) := by
  intro j
  induction j with
  | zero =>
    intro remaining attempt cur t _ _ hterm
    rw [Nat.add_zero] at hterm
    cases remaining with
    | zero => exact ⟨0, by rw [pollLoop, hterm]⟩
    | succ r => exact ⟨0, by rw [pollLoop, hterm]⟩
  | succ n ih =>
    intro remaining attempt cur t hle hpend hterm
    cases remaining with
    | zero => omega
    | succ r =>
      have hp0 : terminalResult (probe attempt) = none :=
        hpend attempt (Nat.le_refl _) (by omega)
      have hterm' : terminalResult (probe (attempt + 1 + n)) = some t := by
        have h : attempt + 1 + n = attempt + (n + 1) := by omega
        rw [h]; exact hterm
      obtain ⟨w, hw⟩ := ih r (attempt + 1)
        (if strategy = .EXPONENTIAL then min (cur * backoffFactor) maxInterval else cur)
        t (by omega)
        (fun k hk1 hk2 => hpend k (by omega) (by omega)) hterm'
      refine ⟨w + cur, ?_⟩
      rw [pollLoop, hp0]
      simp only [hw]

/-- Helper: if every probe is pending, the loop times out after issuing
`remaining + 1` probes. -/
theorem pollLoop_timeout (probe : Nat → ProbeOutcome) (strategy : PollingStrategy)
    (backoffFactor maxInterval : Nat)
    (hpend : ∀ k, terminalResult (probe k) = none) :
    ∀ remaining attempt currentInterval,
      ∃ w, pollLoop probe strategy backoffFactor maxInterval
        remaining attempt currentInterval = (.failure "TX_TIMEOUT", remaining + 1, w) := by
  intro remaining
  induction remaining with
  | zero =>
    intro attempt cur
    exact ⟨0, by rw [pollLoop, hpend attempt]⟩
  | succ r ih =>
    intro attempt cur
    obtain ⟨w, hw⟩ := ih (attempt + 1)
      (if strategy = .EXPONENTIAL then min (cur * backoffFactor) maxInterval else cur)
    refine ⟨w + cur, ?_⟩
    rw [pollLoop, hpend attempt]
    simp only [hw]

/-- Probe trace of the spec's worked example: attempts 1, 2 and 3 report
NOT_FOUND, every later attempt reports on-chain success. -/
def linearProbeExample : Nat → ProbeOutcome :=
  fun i => if i ≤ 3 then .notFound else .success 42

/-- LINEAR polling with interval 100 and the source defaults for the remaining
options. -/
def linearOptsExample : PollingOptions := ⟨.LINEAR, 100, 30, 2, 10000⟩

/-- C5: the poller issues at most `maxAttempts` probes; a probe reporting
success or on-chain failure ends polling immediately with that terminal
result; NOT_FOUND probes and probes that throw are both still-pending and the
loop continues past them; if no probe is terminal the outcome is TX_TIMEOUT,
distinct from TX_FAILED; and 3 NOT_FOUND probes followed by success under the
LINEAR strategy with interval 100 resolve success on the 4th probe with
elapsed wait 300 ≥ 300. -/
theorem C5_poller_behaviour :
    (∀ probe o, (poll probe o).2.1 ≤ o.maxAttempts) ∧
    (∀ probe o n t, 1 ≤ n → n ≤ o.maxAttempts →
      (∀ k, 1 ≤ k → k < n → terminalResult (probe k) = none) →
      terminalResult (probe n) = some t →
      ∃ w, poll probe o = (t, n, w)) ∧
    (∀ probe o, (∀ k, terminalResult (probe k) = none) →
      ∃ w, poll probe o = (.failure "TX_TIMEOUT", o.maxAttempts, w)) ∧
    (∀ l, terminalResult (.success l) = some (.confirmed l)) ∧
    terminalResult .failed = some (.failure "TX_FAILED") ∧
    terminalResult .notFound = none ∧
    terminalResult .rpcError = none ∧
    (PollOutcome.failure "TX_TIMEOUT" ≠ PollOutcome.failure "TX_FAILED") ∧
    poll linearProbeExample linearOptsExample = (.confirmed 42, 4, 300) ∧
    300 ≤ 300 := by
  refine ⟨?_, ?_, ?_, fun l => rfl, rfl, rfl, rfl, by decide, by rfl, by omega⟩
  · intro probe o
    cases hm : o.maxAttempts with
    | zero => simp [poll, hm]
    | succ n =>
      have hp : poll probe o =
          pollLoop probe o.strategy o.backoffFactor o.maxInterval n 1 o.interval := by
        simp only [poll, hm]
      rw [hp]
      exact pollLoop_probes_le probe o.strategy o.backoffFactor o.maxInterval n 1 o.interval
  · intro probe o n t h1 h2 hpend hterm
    cases hm : o.maxAttempts with
    | zero => omega
    | succ m =>
      have hp : poll probe o =
          pollLoop probe o.strategy o.backoffFactor o.maxInterval m 1 o.interval := by
        simp only [poll, hm]
      have hterm' : terminalResult (probe (1 + (n - 1))) = some t := by
        have h : 1 + (n - 1) = n := by omega
        rw [h]; exact hterm
      obtain ⟨w, hw⟩ := pollLoop_terminal probe o.strategy o.backoffFactor o.maxInterval
        (n - 1) m 1 o.interval t (by omega)
        (fun k hk1 hk2 => hpend k hk1 (by omega)) hterm'
      refine ⟨w, ?_⟩
      rw [hp, hw]
      have h : n - 1 + 1 = n := by omega
      rw [h]
  · intro probe o hpend
    cases hm : o.maxAttempts with
    | zero => exact ⟨0, by simp [poll, hm]⟩
    | succ m =>
      have hp : poll probe o =
          pollLoop probe o.strategy o.backoffFactor o.maxInterval m 1 o.interval := by
        simp only [poll, hm]
      obtain ⟨w, hw⟩ := pollLoop_timeout probe o.strategy o.backoffFactor o.maxInterval
        hpend m 1 o.interval
      exact ⟨w, by rw [hp, hw]⟩

/-- C5 witness: two pending probes then an on-chain failure yields the
TX_FAILED result on the third probe. -/
theorem C5_poller_behaviour_witness :
    ∃ w, poll (fun i => if i ≤ 2 then .notFound else .failed) linearOptsExample
      = (.failure "TX_FAILED", 3, w) :=
  C5_poller_behaviour.2.1 (fun i => if i ≤ 2 then .notFound else .failed)
    linearOptsExample 3 (.failure "TX_FAILED") (by omega) (by decide)
    (fun k hk1 hk2 => by
      have h : k = 1 ∨ k = 2 := by omega
      cases h with
      | inl h => subst h; rfl
      | inr h => subst h; rfl)
    (by rfl)

/-- One liquidity pool as consumed by the router: its two tokens (the pair
contract's `token0`/`token1` ordering), reserves in that same order, and the
pool's current dynamic fee in basis points. -/
structure Pool where
  token0 : String
  token1 : String
  reserve0 : Nat
  reserve1 : Nat
  feeBps : Nat
  deriving DecidableEq

/-- Adjacency list built by `RouterModule.buildTokenGraph`
(`src/modules/router.ts`): a JS object mapping a token to the list of directly
paired tokens, modelled as an association list in key-insertion order. -/
abbrev TokenGraph := List (String × List String)

/-- Neighbour lookup `graph[current] || []`. -/
def graphNeighbors (g : TokenGraph) (t : String) : List String :=
  (g.lookup t).getD []

/-- Ensures `graph[a]` exists (`if (!graph[a]) graph[a] = []`). -/
def ensureKey (g : TokenGraph) (a : String) : TokenGraph :=
  if (g.lookup a).isSome then g else g ++ [(a, [])]

/-- Appends `b` to `graph[a]` unless already present
(`if (!graph[a].includes(b)) graph[a].push(b)`). -/
def pushNeighbor (g : TokenGraph) (a b : String) : TokenGraph :=
  g.map (fun p =>
    if p.1 = a then (p.1, if p.2.contains b then p.2 else p.2 ++ [b]) else p)

/-- Adds one pool's edges to the graph, in the source's statement order. -/
def addPoolEdges (g : TokenGraph) (t0 t1 : String) : TokenGraph :=
  pushNeighbor (pushNeighbor (ensureKey (ensureKey g t0) t1) t0 t1) t1 t0

/-- Builds the token graph from the pool list
(`RouterModule.buildTokenGraph`); per-pool token-lookup failures, skipped by
the source, are not modelled — every listed pool resolves. -/
def buildTokenGraph (pools : List Pool) : TokenGraph :=
  pools.foldl (fun g p => addPoolEdges g p.token0 p.token1) []

/-- One pass over the current BFS queue of `RouterModule.findAllPaths`: each
entry `(current, path)` is dequeued in order; if `current` is the destination
the path is accepted when longer than one token (and not expanded further);
otherwise, if the path is within the hop limit, every neighbour not already on
the path is enqueued with the extended path.  Returns the accepted paths and
the enqueued children, both in source dequeue/enqueue order. -/
def bfsStep (g : TokenGraph) (endT : String) (maxHops : Nat) :
    List (String × List String) → List (List String) × List (String × List String)
  | [] => ([], [])
  | (current, path) :: rest =>
    let next := bfsStep g endT maxHops rest
    if current = endT then
      (if path.length > 1 then (path :: next.1, next.2) else next)
    else if path.length > maxHops then next
    else
      let children := (graphNeighbors g current).filterMap
        (fun nb => if path.contains nb then none else some (nb, path ++ [nb]))
      (next.1, children ++ next.2)

/-- Runs the BFS by queue generations.  The source uses one FIFO queue
(`queue.shift()`, children pushed at the back); since the initial queue holds
the single entry `(start, [start])` and every child path is one token longer
than its parent, FIFO order coincides with processing the queue generation by
generation, which is what this fuelled recursion does.  Every entry at
recursion depth `d` has path length `d + 1` and entries are only expanded
while their path length is at most `maxHops`, so generation `maxHops + 1` is
the last non-empty one and fuel `maxHops + 2` (supplied by `findAllPaths`)
never truncates the loop. -/
def bfsRun (g : TokenGraph) (endT : String) (maxHops : Nat) :
    Nat → List (String × List String) → List (List String)
  | 0, _ => []
  | _, [] => []
  | fuel + 1, e :: rest =>
    let step := bfsStep g endT maxHops (e :: rest)
    step.1 ++ bfsRun g endT maxHops fuel step.2

/-- Path enumeration `RouterModule.findAllPaths(start, end, graph, maxHops)`. -/
def findAllPaths (start endT : String) (g : TokenGraph) (maxHops : Nat) :
    List (List String) :=
  bfsRun g endT maxHops (maxHops + 2) [(start, [start])]

/-- Adjacency test for consecutive path tokens in the graph. -/
def chainAdj (g : TokenGraph) : List String → Bool
  | [] => true
  | [_] => true
  | a :: b :: t => decide (b ∈ graphNeighbors g a) && chainAdj g (b :: t)

/-- The boolean chain test agrees with `List.Chain'` over graph adjacency. -/
theorem chainAdj_iff (g : TokenGraph) :
    ∀ p, chainAdj g p = true ↔
      List.Chain' (fun a b => b ∈ graphNeighbors g a) p := by
  intro p
  induction p with
  | nil => simp [chainAdj]
  | cons a t ih =>
    cases t with
    | nil => simp [chainAdj]
    | cons b t' =>
      rw [show chainAdj g (a :: b :: t') =
        (decide (b ∈ graphNeighbors g a) && chainAdj g (b :: t')) from rfl]
      rw [Bool.and_eq_true, decide_eq_true_iff, List.chain'_cons, ih]

/-- Validity of a candidate path: it starts at the source token, ends at the
destination, repeats no token, traverses at least one pool, stays within the
hop limit, and each consecutive pair is connected in the graph. -/
def isPathOK (g : TokenGraph) (start endT : String) (maxHops : Nat)
    (p : List String) : Prop :=
  p.head? = some start ∧ p.getLast? = some endT ∧ p.Nodup ∧
    2 ≤ p.length ∧ p.length ≤ maxHops + 1 ∧ chainAdj g p = true

instance (g : TokenGraph) (start endT : String) (maxHops : Nat) (p : List String) :
    Decidable (isPathOK g start endT maxHops p) :=
  inferInstanceAs (Decidable (p.head? = some start ∧ p.getLast? = some endT ∧
    p.Nodup ∧ 2 ≤ p.length ∧ p.length ≤ maxHops + 1 ∧ chainAdj g p = true))

/-- Unfolding equation: destination entry with an accepted path. -/
theorem bfsStep_cons_hit (g : TokenGraph) (endT : String) (maxHops : Nat)
    (pa : List String) (rest : List (String × List String)) (hl : 1 < pa.length) :
    bfsStep g endT maxHops ((endT, pa) :: rest) =
      (pa :: (bfsStep g endT maxHops rest).1, (bfsStep g endT maxHops rest).2) := by
  simp [bfsStep, hl]

/-- Unfolding equation: destination entry with a one-token path (not accepted). -/
theorem bfsStep_cons_hit_short (g : TokenGraph) (endT : String) (maxHops : Nat)
    (pa : List String) (rest : List (String × List String)) (hl : ¬ 1 < pa.length) :
    bfsStep g endT maxHops ((endT, pa) :: rest) = bfsStep g endT maxHops rest := by
  simp [bfsStep, hl]

/-- Unfolding equation: non-destination entry beyond the hop limit (pruned). -/
theorem bfsStep_cons_prune (g : TokenGraph) (endT : String) (maxHops : Nat)
    (c : String) (pa : List String) (rest : List (String × List String))
    (hc : c ≠ endT) (hl : pa.length > maxHops) :
    bfsStep g endT maxHops ((c, pa) :: rest) = bfsStep g endT maxHops rest := by
  simp [bfsStep, hc, hl]

/-- Unfolding equation: non-destination entry within the hop limit (expanded). -/
theorem bfsStep_cons_expand (g : TokenGraph) (endT : String) (maxHops : Nat)
    (c : String) (pa : List String) (rest : List (String × List String))
    (hc : c ≠ endT) (hl : ¬ pa.length > maxHops) :
    bfsStep g endT maxHops ((c, pa) :: rest) =
      ((bfsStep g endT maxHops rest).1,
       (graphNeighbors g c).filterMap
         (fun nb => if pa.contains nb then none else some (nb, pa ++ [nb])) ++
       (bfsStep g endT maxHops rest).2) := by
  simp [bfsStep, hc, hl]

/-- Membership in the accepted output of one BFS pass: exactly the queue
entries that reached the destination with more than one token. -/
theorem bfsStep_acc_mem (g : TokenGraph) (endT : String) (maxHops : Nat) :
    ∀ queue p, p ∈ (bfsStep g endT maxHops queue).1 ↔
      ((endT, p) ∈ queue ∧ 1 < p.length) := by
  intro queue
  induction queue with
  | nil => intro p; simp [bfsStep]
  | cons e rest ih =>
    intro p
    obtain ⟨c, pa⟩ := e
    by_cases hc : c = endT
    · rw [hc]
      by_cases hl : 1 < pa.length
      · rw [bfsStep_cons_hit g endT maxHops pa rest hl]
        simp only [List.mem_cons, ih, Prod.mk.injEq, true_and]
        constructor
        · rintro (rfl | ⟨hmem, hlen⟩)
          · exact ⟨Or.inl rfl, hl⟩
          · exact ⟨Or.inr hmem, hlen⟩
        · rintro ⟨rfl | hmem, hlen⟩
          · exact Or.inl rfl
          · exact Or.inr ⟨hmem, hlen⟩
      · rw [bfsStep_cons_hit_short g endT maxHops pa rest hl]
        rw [ih]
        simp only [List.mem_cons, Prod.mk.injEq, true_and]
        constructor
        · rintro ⟨hmem, hlen⟩; exact ⟨Or.inr hmem, hlen⟩
        · rintro ⟨rfl | hmem, hlen⟩
          · omega
          · exact ⟨hmem, hlen⟩
    · have hsame : (bfsStep g endT maxHops ((c, pa) :: rest)).1 =
          (bfsStep g endT maxHops rest).1 := by
        by_cases hl : pa.length > maxHops
        · rw [bfsStep_cons_prune g endT maxHops c pa rest hc hl]
        · rw [bfsStep_cons_expand g endT maxHops c pa rest hc hl]
      rw [hsame, ih]
      simp only [List.mem_cons, Prod.mk.injEq]
      constructor
      · rintro ⟨hmem, hlen⟩; exact ⟨Or.inr hmem, hlen⟩
      · rintro ⟨⟨he, -⟩ | hmem, hlen⟩
        · exact absurd he.symm hc
        · exact ⟨hmem, hlen⟩

/-- Membership in the next queue of one BFS pass: exactly the admissible
extensions of expanded entries. -/
theorem bfsStep_next_mem (g : TokenGraph) (endT : String) (maxHops : Nat) :
    ∀ queue e, e ∈ (bfsStep g endT maxHops queue).2 ↔
      ∃ c pa, (c, pa) ∈ queue ∧ c ≠ endT ∧ pa.length ≤ maxHops ∧
        ∃ nb, nb ∈ graphNeighbors g c ∧ pa.contains nb = false ∧
          e = (nb, pa ++ [nb]) := by
  intro queue
  induction queue with
  | nil => intro e; simp [bfsStep]
  | cons hd rest ih =>
    intro e
    obtain ⟨c, pa⟩ := hd
    by_cases hc : c = endT
    · rw [hc]
      have hsame : (bfsStep g endT maxHops ((endT, pa) :: rest)).2 =
          (bfsStep g endT maxHops rest).2 := by
        by_cases hl : 1 < pa.length
        · rw [bfsStep_cons_hit g endT maxHops pa rest hl]
        · rw [bfsStep_cons_hit_short g endT maxHops pa rest hl]
      rw [hsame, ih]
      constructor
      · rintro ⟨c', pa', hmem, hne, hlen, rest'⟩
        exact ⟨c', pa', List.mem_cons_of_mem _ hmem, hne, hlen, rest'⟩
      · rintro ⟨c', pa', hmem, hne, hlen, rest'⟩
        rcases List.mem_cons.mp hmem with heq | hmem'
        · cases heq; exact absurd rfl hne
        · exact ⟨c', pa', hmem', hne, hlen, rest'⟩
    · by_cases hl : pa.length > maxHops
      · rw [bfsStep_cons_prune g endT maxHops c pa rest hc hl, ih]
        constructor
        · rintro ⟨c', pa', hmem, hne, hlen, rest'⟩
          exact ⟨c', pa', List.mem_cons_of_mem _ hmem, hne, hlen, rest'⟩
        · rintro ⟨c', pa', hmem, hne, hlen, rest'⟩
          rcases List.mem_cons.mp hmem with heq | hmem'
          · cases heq; omega
          · exact ⟨c', pa', hmem', hne, hlen, rest'⟩
      · rw [bfsStep_cons_expand g endT maxHops c pa rest hc hl]
        simp only [List.mem_append, List.mem_filterMap, ih]
        constructor
        · rintro (⟨nb, hnb, hif⟩ | ⟨c', pa', hmem, hne, hlen, rest'⟩)
          · by_cases hcont : pa.contains nb
            · rw [if_pos hcont] at hif; cases hif
            · rw [if_neg hcont] at hif
              refine ⟨c, pa, List.mem_cons_self _ _, hc, by omega,
                nb, hnb, by simpa using hcont, ?_⟩
              cases hif; rfl
          · exact ⟨c', pa', List.mem_cons_of_mem _ hmem, hne, hlen, rest'⟩
        · rintro ⟨c', pa', hmem, hne, hlen, nb, hnb, hcont, rfl⟩
          rcases List.mem_cons.mp hmem with heq | hmem'
          · obtain ⟨rfl, rfl⟩ := Prod.mk.injEq .. ▸ heq
            refine Or.inl ⟨nb, hnb, ?_⟩
            rw [if_neg (by simpa using hcont)]
          · exact Or.inr ⟨c', pa', hmem', hne, hlen, nb, hnb, hcont, rfl⟩

/-- Invariant of BFS queue entries: the carried path starts at the source,
ends at the carried current token, repeats no token, stays within the hop
limit and follows graph edges. -/
def entryOK (g : TokenGraph) (start : String) (maxHops : Nat)
    (e : String × List String) : Prop :=
  e.2.head? = some start ∧ e.2.getLast? = some e.1 ∧ e.2.Nodup ∧
    e.2.length ≤ maxHops + 1 ∧ chainAdj g e.2 = true

/-- One BFS pass only accepts valid paths and preserves the queue invariant. -/
theorem bfsStep_sound (g : TokenGraph) (start endT : String) (maxHops : Nat)
    (queue : List (String × List String))
    (hq : ∀ e ∈ queue, entryOK g start maxHops e) :
    (∀ p ∈ (bfsStep g endT maxHops queue).1, isPathOK g start endT maxHops p) ∧
    (∀ e ∈ (bfsStep g endT maxHops queue).2, entryOK g start maxHops e) := by
  constructor
  · intro p hp
    obtain ⟨hmem, hlen⟩ := (bfsStep_acc_mem g endT maxHops queue p).mp hp
    obtain ⟨hhead, hlast, hnodup, hbound, hchain⟩ := hq _ hmem
    exact ⟨hhead, hlast, hnodup, by omega, hbound, hchain⟩
  · intro e he
    obtain ⟨c, pa, hmem, hne, hlen, nb, hnb, hcont, rfl⟩ :=
      (bfsStep_next_mem g endT maxHops queue e).mp he
    obtain ⟨hhead, hlast, hnodup, hbound, hchain⟩ := hq _ hmem
    have hpane : pa ≠ [] := by
      intro h; rw [h] at hhead; simp at hhead
    have hnbnotin : nb ∉ pa := by simpa using hcont
    refine ⟨?_, ?_, ?_, ?_, ?_⟩
    · rw [List.head?_append_of_ne_nil pa hpane]; exact hhead
    · exact List.getLast?_concat pa
    · rw [List.nodup_append]
      refine ⟨hnodup, List.nodup_singleton nb, ?_⟩
      intro a ha hamem
      rcases List.mem_singleton.mp hamem with rfl
      exact hnbnotin ha
    · simp only [List.length_append, List.length_singleton]
      omega
    · rw [chainAdj_iff] at hchain ⊢
      rw [List.chain'_append]
      refine ⟨hchain, List.chain'_singleton nb, ?_⟩
      intro x hx y hy
      rcases List.mem_singleton.mp (by simpa using hy) with rfl
      have hxc : c = x := by
        rw [hlast] at hx
        simpa using hx
      rw [← hxc]
      exact hnb

/-- All paths produced by the fuelled BFS run are valid. -/
theorem bfsRun_sound (g : TokenGraph) (start endT : String) (maxHops : Nat) :
    ∀ fuel queue, (∀ e ∈ queue, entryOK g start maxHops e) →
      ∀ p ∈ bfsRun g endT maxHops fuel queue, isPathOK g start endT maxHops p := by
  intro fuel
  induction fuel with
  | zero => intro queue _ p hp; simp [bfsRun] at hp
  | succ f ih =>
    intro queue hq p hp
    cases queue with
    | nil => simp [bfsRun] at hp
    | cons e rest =>
      rw [bfsRun] at hp
      rcases List.mem_append.mp hp with hacc | hrun
      · exact (bfsStep_sound g start endT maxHops (e :: rest) hq).1 p hacc
      · exact ih _ (bfsStep_sound g start endT maxHops (e :: rest) hq).2 p hrun

/-- Completeness of the fuelled BFS run: any valid extension of a queue
entry's path to the destination is eventually accepted, given enough fuel for
the missing levels. -/
theorem bfsRun_complete (g : TokenGraph) (endT : String) (maxHops : Nat) :
    ∀ fuel queue (q pa : List String) (c : String), (c, pa) ∈ queue →
      pa.getLast? = some c → pa <+: q →
      q.Nodup → chainAdj g q → q.getLast? = some endT →
      2 ≤ q.length → q.length ≤ maxHops + 1 →
      q.length + 1 ≤ fuel + pa.length →
      q ∈ bfsRun g endT maxHops fuel queue := by
  intro fuel
  induction fuel with
  | zero =>
    intro queue q pa c hmem hlast hpre _ _ _ _ _ hfuel
    have := hpre.length_le
    omega
  | succ f ih =>
    intro queue q pa c hmem hlast hpre hnodup hchain hqlast hq2 hqbound hfuel
    cases queue with
    | nil => simp at hmem
    | cons e rest =>
      rw [bfsRun]
      by_cases hpq : pa = q
      · subst hpq
        have hce : c = endT := by
          rw [hlast] at hqlast
          simpa using hqlast
        subst hce
        refine List.mem_append.mpr (Or.inl ?_)
        exact (bfsStep_acc_mem g c maxHops (e :: rest) pa).mpr ⟨hmem, by omega⟩
      · obtain ⟨t, rfl⟩ := hpre
        have htne : t ≠ [] := by
          intro h; rw [h, List.append_nil] at hpq; exact hpq rfl
        obtain ⟨nb, t', rfl⟩ := List.exists_cons_of_ne_nil htne
        have hpane : pa ≠ [] := by
          intro h
          rw [h] at hlast
          simp at hlast
        -- decompose the chain at the junction
        have hchain' := (chainAdj_iff g _).mp hchain
        rw [List.chain'_append] at hchain'
        obtain ⟨hchainpa, hchaint, hjunction⟩ := hchain'
        have hnbadj : nb ∈ graphNeighbors g c := by
          have := hjunction c (by rw [hlast]; simp) nb (by simp)
          exact this
        -- nodup split
        have hsplit := List.nodup_append.mp hnodup
        obtain ⟨hnodup_pa, hnodup_t, hdisj⟩ := hsplit
        have hnbnotin : nb ∉ pa := fun h => hdisj h (by simp)
        -- c ≠ endT: otherwise endT occurs both in pa and at the end of nb :: t'
        have hcne : c ≠ endT := by
          intro hce
          subst hce
          have hcinpa : c ∈ pa := List.mem_of_mem_getLast? (by rw [hlast]; rfl)
          have hlast2 : (nb :: t').getLast? = some c := by
            have h2 := hqlast
            rw [List.getLast?_append] at h2
            obtain ⟨v, hv⟩ : ∃ v, (nb :: t').getLast? = some v := by
              simp [List.getLast?_eq_getLast]
            rw [hv] at h2
            have h3 : some v = some c := h2
            rw [hv, h3]
          have hcint : c ∈ nb :: t' := List.mem_of_mem_getLast? (by rw [hlast2]; rfl)
          exact hdisj hcinpa hcint
        -- length bookkeeping
        have hlenq : (pa ++ nb :: t').length = pa.length + t'.length + 1 := by
          simp [List.length_append]
          omega
        have hpalen : pa.length ≤ maxHops := by omega
        -- the child entry is in the next queue
        have hchild : (nb, pa ++ [nb]) ∈ (bfsStep g endT maxHops (e :: rest)).2 := by
          apply (bfsStep_next_mem g endT maxHops (e :: rest) (nb, pa ++ [nb])).mpr
          exact ⟨c, pa, hmem, hcne, hpalen, nb, hnbadj,
            by simp [hnbnotin], rfl⟩
        refine List.mem_append.mpr (Or.inr ?_)
        have hassoc : pa ++ nb :: t' = (pa ++ [nb]) ++ t' := by simp
        have hlast' : (pa ++ [nb]).getLast? = some nb := List.getLast?_concat pa
        have hnodup' : ((pa ++ [nb]) ++ t').Nodup := by rw [← hassoc]; exact hnodup
        have hchain2 : chainAdj g ((pa ++ [nb]) ++ t') = true := by
          rw [← hassoc]; exact hchain
        have hqlast' : ((pa ++ [nb]) ++ t').getLast? = some endT := by
          rw [← hassoc]; exact hqlast
        have hq2' : 2 ≤ ((pa ++ [nb]) ++ t').length := by rw [← hassoc]; exact hq2
        have hqbound' : ((pa ++ [nb]) ++ t').length ≤ maxHops + 1 := by
          rw [← hassoc]; exact hqbound
        have hfuel' : ((pa ++ [nb]) ++ t').length + 1 ≤ f + (pa ++ [nb]).length := by
          have h1 : ((pa ++ [nb]) ++ t').length = pa.length + t'.length + 1 := by
            simp [List.length_append]
            omega
          have h2 : (pa ++ [nb]).length = pa.length + 1 := by simp
          rw [h1, h2]
          omega
        rw [hassoc]
        exact ih (bfsStep g endT maxHops (e :: rest)).2 ((pa ++ [nb]) ++ t')
          (pa ++ [nb]) nb hchild hlast' ⟨t', rfl⟩ hnodup' hchain2 hqlast' hq2'
          hqbound' hfuel'

/-- C7: `findAllPaths` enumerates exactly the simple paths from source to
destination within the hop limit — membership in its output is equivalent to
being a duplicate-free path along graph edges from `start` to `endT` with
between 2 and `maxHops + 1` tokens — and on the three concrete configurations
of the claim it returns `[[A,B,C]]`, `[]` and `[]` respectively. -/
theorem C7_find_all_paths :
    (∀ (g : TokenGraph) (start endT : String) (maxHops : Nat) (p : List String),
      p ∈ findAllPaths start endT g maxHops ↔ isPathOK g start endT maxHops p) ∧
    findAllPaths "A" "C"
      (buildTokenGraph [⟨"A", "B", 1000, 1000, 30⟩, ⟨"B", "C", 1000, 1000, 30⟩]) 3
      = [["A", "B", "C"]] ∧
    findAllPaths "A" "C" (buildTokenGraph [⟨"A", "B", 1000, 1000, 30⟩]) 3 = [] ∧
    findAllPaths "A" "E"
      (buildTokenGraph [⟨"A", "B", 1000, 1000, 30⟩, ⟨"B", "C", 1000, 1000, 30⟩,
        ⟨"C", "D", 1000, 1000, 30⟩, ⟨"D", "E", 1000, 1000, 30⟩]) 3 = [] := by
  refine ⟨?_, by decide, by decide, by decide⟩
  intro g start endT maxHops p
  have hinit : ∀ e ∈ [(start, [start])], entryOK g start maxHops e := by
    intro e he
    rcases List.mem_singleton.mp he with rfl
    refine ⟨rfl, rfl, List.nodup_singleton _, by simp, rfl⟩
  constructor
  · intro hp
    exact bfsRun_sound g start endT maxHops (maxHops + 2) [(start, [start])] hinit p hp
  · rintro ⟨hhead, hlast, hnodup, h2, hbound, hchain⟩
    obtain ⟨t, rfl⟩ : ∃ t, p = start :: t := by
      cases p with
      | nil => simp at hhead
      | cons a t => simp at hhead; exact ⟨t, by rw [hhead]⟩
    exact bfsRun_complete g endT maxHops (maxHops + 2) [(start, [start])]
      (start :: t) [start] start (List.mem_singleton_self _) rfl ⟨t, rfl⟩
      hnodup hchain hlast h2 hbound
      (by simp only [List.length_cons, List.length_singleton] at hbound ⊢; omega)

/-- C7 witness: the 2-hop path is a member, via the characterization. -/
theorem C7_find_all_paths_witness :
    ["A", "B", "C"] ∈ findAllPaths "A" "C"
      (buildTokenGraph [⟨"A", "B", 1000, 1000, 30⟩, ⟨"B", "C", 1000, 1000, 30⟩]) 3 :=
  (C7_find_all_paths.1 (buildTokenGraph [⟨"A", "B", 1000, 1000, 30⟩,
    ⟨"B", "C", 1000, 1000, 30⟩]) "A" "C" 3 ["A", "B", "C"]).mpr (by decide)

/-- Swap quote as used by the route selector.  Of the source `SwapQuote`
record only the fields that route selection reads or that the claims mention
are modelled; the display-only fields (slippage minimum, deadline, fee and
price-impact breakdown) are omitted. -/
structure SwapQuoteM where
  amountIn : Nat
  amountOut : Nat
  path : List String
  deriving DecidableEq

/-- Pair lookup for a token pair (`client.getPairAddress`): the first known
pool containing both tokens, in either orientation. -/
def findPool (pools : List Pool) (a b : String) : Option Pool :=
  pools.find? (fun p => (p.token0 == a && p.token1 == b) ||
    (p.token0 == b && p.token1 == a))

/-- Exact-in single-hop quote, `SwapModule.getQuote` from
`src/contracts/pair.ts`: resolve the pair (throw if absent), orient the
reserves by whether `tokenIn` is `token0`, and price via `getAmountOut` with
the pair's dynamic fee.  Thrown errors (no pair, bad amounts, empty reserves)
are `none`. -/
def getQuote (pools : List Pool) (tokenIn tokenOut : String) (amount : Nat) :
    Option SwapQuoteM :=
  match findPool pools tokenIn tokenOut with
  | none => none
  | some pair =>
    let isToken0In := pair.token0 == tokenIn
    let reserveIn := if isToken0In then pair.reserve0 else pair.reserve1
    let reserveOut := if isToken0In then pair.reserve1 else pair.reserve0
    match getAmountOut amount reserveIn reserveOut pair.feeBps with
    | none => none
    | some amountOut => some ⟨amount, amountOut, [tokenIn, tokenOut]⟩

/-- Chains the per-hop outputs along a path: each hop is priced by
`getAmountOut` against its own pool's oriented reserves and dynamic fee, and
its output becomes the next hop's input. -/
def multiHopOut (pools : List Pool) : String → List String → Nat → Option Nat
  | _, [], amt => some amt
  | t, nxt :: rest, amt =>
    match findPool pools t nxt with
    | none => none
    | some pair =>
      let isToken0In := pair.token0 == t
      let reserveIn := if isToken0In then pair.reserve0 else pair.reserve1
      let reserveOut := if isToken0In then pair.reserve1 else pair.reserve0
      match getAmountOut amt reserveIn reserveOut pair.feeBps with
      | none => none
      | some out => multiHopOut pools nxt rest out

/-- Modelled from the spec: `SwapModule.getMultiHopQuote` is called by
`RouterModule.findOptimalPath` (src/modules/router.ts) but its definition is
not among the provided sources.  Per spec §4.4, a path longer than two tokens
is priced as a chained quote in which each hop is priced by the single-hop
formula of §4.2 against that hop's pool reserves and dynamic fee and each
hop's output becomes the next hop's input; any hop failure (missing pool,
insufficient liquidity) fails the whole quote. -/
def getMultiHopQuote (pools : List Pool) (path : List String) (amount : Nat) :
    Option SwapQuoteM :=
  match path with
  | [] => none
  | t0 :: rest =>
    match multiHopOut pools t0 rest amount with
    | none => none
    | some out => some ⟨amount, out, path⟩

/-- Loop body of `findOptimalPath`'s candidate evaluation: a length-2 path
gets a single-hop quote, a longer path the chained multi-hop quote; a path
whose quote throws is skipped (`none`). -/
def quoteForPath (pools : List Pool) (amount : Nat) (path : List String) :
    Option SwapQuoteM :=
  match path with
  | [a, b] => getQuote pools a b amount
  | _ => getMultiHopQuote pools path amount

/-- Best path found so far, `OptimalPath` from `src/modules/router.ts`. -/
structure OptimalPath where
  path : List String
  quote : SwapQuoteM
  deriving DecidableEq

/-- Selection loop of `findOptimalPath`: paths are evaluated in discovery
order; a failed path is skipped; a candidate replaces the current best only
with a strictly greater `amountOut` (ties keep the first found). -/
def bestLoop (pools : List Pool) (amount : Nat) :
    List (List String) → Option OptimalPath → Option OptimalPath
  | [], best => best
  | p :: rest, best =>
    match quoteForPath pools amount p with
    | none => bestLoop pools amount rest best
    | some q =>
      match best with
      | none => bestLoop pools amount rest (some ⟨p, q⟩)
      | some b =>
        if q.amountOut > b.quote.amountOut then
          bestLoop pools amount rest (some ⟨p, q⟩)
        else bestLoop pools amount rest (some b)

/-- Off-chain route optimisation `RouterModule.findOptimalPath` (exact-in):
build the token graph from all pairs, enumerate candidate paths up to 3 hops,
and keep the candidate with the largest quoted output. -/
def findOptimalPath (pools : List Pool) (tokenIn tokenOut : String)
    (amount : Nat) : Option OptimalPath :=
  bestLoop pools amount
    (findAllPaths tokenIn tokenOut (buildTokenGraph pools) 3) none

/-- Unfolding equation: a failed candidate is skipped. -/
theorem bestLoop_cons_skip (pools : List Pool) (amount : Nat) (p : List String)
    (rest : List (List String)) (best : Option OptimalPath)
    (hq : quoteForPath pools amount p = none) :
    bestLoop pools amount (p :: rest) best = bestLoop pools amount rest best := by
  rw [bestLoop, hq]

/-- Unfolding equation: the first valid candidate becomes the best. -/
theorem bestLoop_cons_first (pools : List Pool) (amount : Nat) (p : List String)
    (rest : List (List String)) (q : SwapQuoteM)
    (hq : quoteForPath pools amount p = some q) :
    bestLoop pools amount (p :: rest) none =
      bestLoop pools amount rest (some ⟨p, q⟩) := by
  rw [bestLoop, hq]

/-- Unfolding equation: a strictly better candidate replaces the best. -/
theorem bestLoop_cons_better (pools : List Pool) (amount : Nat) (p : List String)
    (rest : List (List String)) (q : SwapQuoteM) (b : OptimalPath)
    (hq : quoteForPath pools amount p = some q)
    (hgt : q.amountOut > b.quote.amountOut) :
    bestLoop pools amount (p :: rest) (some b) =
      bestLoop pools amount rest (some ⟨p, q⟩) := by
  rw [bestLoop, hq]
  exact if_pos hgt

/-- Unfolding equation: otherwise the earlier best is kept. -/
theorem bestLoop_cons_keep (pools : List Pool) (amount : Nat) (p : List String)
    (rest : List (List String)) (q : SwapQuoteM) (b : OptimalPath)
    (hq : quoteForPath pools amount p = some q)
    (hgt : ¬ q.amountOut > b.quote.amountOut) :
    bestLoop pools amount (p :: rest) (some b) =
      bestLoop pools amount rest (some b) := by
  rw [bestLoop, hq]
  exact if_neg hgt

/-- Helper: when the selection loop yields no route, no candidate (nor the
incoming best) produced a valid quote. -/
theorem bestLoop_none (pools : List Pool) (amount : Nat) :
    ∀ paths best, bestLoop pools amount paths best = none →
      best = none ∧ ∀ p ∈ paths, quoteForPath pools amount p = none := by
  intro paths
  induction paths with
  | nil =>
    intro best h
    rw [bestLoop] at h
    exact ⟨h, by simp⟩
  | cons p rest ih =>
    intro best h
    cases hq : quoteForPath pools amount p with
    | none =>
      rw [bestLoop_cons_skip pools amount p rest best hq] at h
      obtain ⟨hb, hrest⟩ := ih best h
      refine ⟨hb, ?_⟩
      intro p' hp'
      rcases List.mem_cons.mp hp' with rfl | hm
      · exact hq
      · exact hrest _ hm
    | some q =>
      cases best with
      | none =>
        rw [bestLoop_cons_first pools amount p rest q hq] at h
        obtain ⟨hb, -⟩ := ih _ h
        cases hb
      | some b =>
        by_cases hgt : q.amountOut > b.quote.amountOut
        · rw [bestLoop_cons_better pools amount p rest q b hq hgt] at h
          obtain ⟨hb, -⟩ := ih _ h
          cases hb
        · rw [bestLoop_cons_keep pools amount p rest q b hq hgt] at h
          obtain ⟨hb, -⟩ := ih _ h
          cases hb

/-- Helper: when the selection loop yields a route, that route is a candidate
(or the incoming best), its quote is valid, and its output dominates both the
incoming best and every candidate's valid quote. -/
theorem bestLoop_some (pools : List Pool) (amount : Nat) :
    ∀ paths best bp, bestLoop pools amount paths best = some bp →
      (best = some bp ∨
        (bp.path ∈ paths ∧ quoteForPath pools amount bp.path = some bp.quote)) ∧
      (∀ b, best = some b → b.quote.amountOut ≤ bp.quote.amountOut) ∧
      (∀ p q, p ∈ paths → quoteForPath pools amount p = some q →
        q.amountOut ≤ bp.quote.amountOut) := by
  intro paths
  induction paths with
  | nil =>
    intro best bp h
    rw [bestLoop] at h
    refine ⟨Or.inl h, ?_, ?_⟩
    · intro b hb
      rw [hb] at h
      cases h
      exact Nat.le_refl _
    · intro p q hp
      simp at hp
  | cons p rest ih =>
    intro best bp h
    cases hq : quoteForPath pools amount p with
    | none =>
      rw [bestLoop_cons_skip pools amount p rest best hq] at h
      obtain ⟨o1, o2, o3⟩ := ih best bp h
      refine ⟨?_, o2, ?_⟩
      · rcases o1 with h1 | ⟨hm, hqq⟩
        · exact Or.inl h1
        · exact Or.inr ⟨List.mem_cons_of_mem _ hm, hqq⟩
      · intro p' q' hp' hq'
        rcases List.mem_cons.mp hp' with rfl | hm
        · rw [hq] at hq'; cases hq'
        · exact o3 p' q' hm hq'
    | some q =>
      have mainStep :
          bestLoop pools amount rest (some ⟨p, q⟩) = some bp →
          ((bp.path ∈ p :: rest ∧
              quoteForPath pools amount bp.path = some bp.quote) ∧
          q.amountOut ≤ bp.quote.amountOut ∧
          (∀ p' q', p' ∈ rest → quoteForPath pools amount p' = some q' →
            q'.amountOut ≤ bp.quote.amountOut)) := by
        intro hnb
        obtain ⟨o1, o2, o3⟩ := ih (some ⟨p, q⟩) bp hnb
        have hqle : q.amountOut ≤ bp.quote.amountOut := o2 ⟨p, q⟩ rfl
        refine ⟨?_, hqle, o3⟩
        rcases o1 with h1 | ⟨hm, hqq⟩
        · cases h1
          exact ⟨List.mem_cons_self _ _, hq⟩
        · exact ⟨List.mem_cons_of_mem _ hm, hqq⟩
      cases best with
      | none =>
        rw [bestLoop_cons_first pools amount p rest q hq] at h
        obtain ⟨o1, hqle, o3⟩ := mainStep h
        refine ⟨Or.inr o1, ?_, ?_⟩
        · intro b hb; cases hb
        · intro p' q' hp' hq'
          rcases List.mem_cons.mp hp' with rfl | hm
          · rw [hq] at hq'; cases hq'; exact hqle
          · exact o3 p' q' hm hq'
      | some b =>
        by_cases hgt : q.amountOut > b.quote.amountOut
        · rw [bestLoop_cons_better pools amount p rest q b hq hgt] at h
          obtain ⟨o1, hqle, o3⟩ := mainStep h
          refine ⟨Or.inr o1, ?_, ?_⟩
          · intro b' hb'
            cases hb'
            omega
          · intro p' q' hp' hq'
            rcases List.mem_cons.mp hp' with rfl | hm
            · rw [hq] at hq'; cases hq'; exact hqle
            · exact o3 p' q' hm hq'
        · rw [bestLoop_cons_keep pools amount p rest q b hq hgt] at h
          obtain ⟨o1, o2, o3⟩ := ih (some b) bp h
          have hble : b.quote.amountOut ≤ bp.quote.amountOut := o2 b rfl
          refine ⟨?_, ?_, ?_⟩
          · rcases o1 with h1 | ⟨hm, hqq⟩
            · exact Or.inl h1
            · exact Or.inr ⟨List.mem_cons_of_mem _ hm, hqq⟩
          · intro b' hb'
            cases hb'
            exact hble
          · intro p' q' hp' hq'
            rcases List.mem_cons.mp hp' with rfl | hm
            · rw [hq] at hq'
              cases hq'
              omega
            · exact o3 p' q' hm hq'

/-- C2: `findOptimalPath` evaluates every candidate path's quote (single-hop
for 2-token paths, chained multi-hop for longer — see `quoteForPath`) and
returns a candidate with the largest quoted output; and on the concrete
configuration of the claim (direct pool 10,000/10,000 at 30 bps versus two
1,000,000/1,000,000 pools at 30 bps, input 5,000) it returns the 2-hop path
`A → C → B` with output 4920. -/
theorem C2_route_selection :
    (∀ pools tokenIn tokenOut amount bp,
      findOptimalPath pools tokenIn tokenOut amount = some bp →
        bp.path ∈ findAllPaths tokenIn tokenOut (buildTokenGraph pools) 3 ∧
        quoteForPath pools amount bp.path = some bp.quote ∧
        (∀ p q, p ∈ findAllPaths tokenIn tokenOut (buildTokenGraph pools) 3 →
          quoteForPath pools amount p = some q →
          q.amountOut ≤ bp.quote.amountOut)) ∧
    (∀ pools tokenIn tokenOut amount,
      findOptimalPath pools tokenIn tokenOut amount = none →
        ∀ p ∈ findAllPaths tokenIn tokenOut (buildTokenGraph pools) 3,
          quoteForPath pools amount p = none) ∧
    findOptimalPath [⟨"A", "B", 10000, 10000, 30⟩,
      ⟨"A", "C", 1000000, 1000000, 30⟩, ⟨"C", "B", 1000000, 1000000, 30⟩]
      "A" "B" 5000 =
      some ⟨["A", "C", "B"], ⟨5000, 4920, ["A", "C", "B"]⟩⟩ := by
  refine ⟨?_, ?_, by decide⟩
  · intro pools tokenIn tokenOut amount bp h
    obtain ⟨o1, -, o3⟩ := bestLoop_some pools amount
      (findAllPaths tokenIn tokenOut (buildTokenGraph pools) 3) none bp h
    rcases o1 with h1 | ⟨hm, hqq⟩
    · cases h1
    · exact ⟨hm, hqq, fun p q hp hq => o3 p q hp hq⟩
  · intro pools tokenIn tokenOut amount h
    exact (bestLoop_none pools amount
      (findAllPaths tokenIn tokenOut (buildTokenGraph pools) 3) none h).2

/-- C2 witness: the winning 2-hop route of the concrete scenario is a
candidate whose quote is valid. -/
theorem C2_route_selection_witness :
    (["A", "C", "B"] ∈ findAllPaths "A" "B"
      (buildTokenGraph [⟨"A", "B", 10000, 10000, 30⟩,
        ⟨"A", "C", 1000000, 1000000, 30⟩, ⟨"C", "B", 1000000, 1000000, 30⟩]) 3) ∧
    quoteForPath [⟨"A", "B", 10000, 10000, 30⟩, ⟨"A", "C", 1000000, 1000000, 30⟩,
      ⟨"C", "B", 1000000, 1000000, 30⟩] 5000 ["A", "C", "B"] =
      some ⟨5000, 4920, ["A", "C", "B"]⟩ := by
  have h := C2_route_selection.1 [⟨"A", "B", 10000, 10000, 30⟩,
    ⟨"A", "C", 1000000, 1000000, 30⟩, ⟨"C", "B", 1000000, 1000000, 30⟩]
    "A" "B" 5000 ⟨["A", "C", "B"], ⟨5000, 4920, ["A", "C", "B"]⟩⟩ (by decide)
  exact ⟨h.1, h.2.1⟩

/-- Rounding modes of `src/utils/math.ts`. -/
inductive Rounding
  | ROUND_DOWN
  | ROUND_HALF_UP
  | ROUND_UP
  deriving DecidableEq

/-- String of `k` zero characters, JS `'0'.repeat(k)`. -/
def zeros (k : Nat) : String := String.mk (List.replicate k '0')

/-- First `k` characters, JS `str.slice(0, k)` for `0 ≤ k ≤ str.length`. -/
def strTake (s : String) (k : Nat) : String := String.mk (s.toList.take k)

/-- Characters from position `k` on, JS `str.slice(k)` for `0 ≤ k`. -/
def strDrop (s : String) (k : Nat) : String := String.mk (s.toList.drop k)

/-- Rounded integer division, `Fraction.divideWithRounding` from
`src/utils/math.ts`.  JS `bigint` `/` and `%` truncate toward zero, i.e.
`Int.tdiv` and `Int.tmod`. -/
def divideWithRounding (numerator denominator : Int) (rounding : Rounding) : Int :=
  let quotient := numerator.tdiv denominator
  let remainder := numerator.tmod denominator
  if remainder = 0 then quotient
  else
    let numAbs := if numerator < 0 then -numerator else numerator
    let denAbs := if denominator < 0 then -denominator else denominator
    let remAbs := if remainder < 0 then -remainder else remainder
    let increment : Int :=
      match rounding with
      | .ROUND_DOWN => 0
      | .ROUND_UP => if remAbs > 0 then 1 else 0
      | .ROUND_HALF_UP => if remAbs * 2 ≥ denAbs then 1 else 0
    if decide (numerator ≥ 0) = decide (denominator ≥ 0) then
      numAbs.tdiv denAbs + increment
    else -(numAbs.tdiv denAbs + increment)

/-- Fuelled form of the `while (n < d) { n *= 10n; shift++ }` loop of
`Fraction.toSignificant`: returns the scaled value and the shift count.  The
loop runs only with `n ≥ 1` (the zero numerator returns earlier), and then at
most `d` iterations are needed since `10^d ≥ d`; the supplied fuel `d + 1`
therefore never cuts the loop short. -/
def scaleLoop : Nat → Nat → Nat → Nat × Nat
  | 0, n, _ => (n, 0)
  | fuel + 1, n, d =>
    if n < d then
      let r := scaleLoop fuel (n * 10) d
      (r.1, r.2 + 1)
    else (n, 0)

/-- Significant-digit rendering, `Fraction.toSignificant` from
`src/utils/math.ts` (the `_format` group-separator argument, unused by the
source, is dropped; a negative `significantDigits`, which throws, cannot be
expressed with `Nat`).  Quantities that can be negative in the source
(`intDigits`, `decimalPos`, `totalDecimalPlaces`) are modelled as `Int`;
quotients handed to `toString` are nonnegative (magnitudes are divided), so
their decimal rendering is `Nat.repr` of `Int.toNat`. -/
def toSignificant (numerator denominator : Int) (significantDigits : Nat)
    (rounding : Rounding) : String :=
  if numerator = 0 then "0"
  else
    let isNegative := decide (numerator < 0) != decide (denominator < 0)
    let sign := if isNegative then "-" else ""
    let num := numerator.natAbs
    let den := denominator.natAbs
    if num < den then
      let scaled := scaleLoop (den + 1) num den
      let shift := scaled.2
      let power := significantDigits - 1
      let n2 := if power > 0 then scaled.1 * 10 ^ power else scaled.1
      let quotient := (divideWithRounding (n2 : Int) (den : Int) rounding).toNat
      let str0 := Nat.repr quotient
      let overflow := str0.length > significantDigits
      let shift' := if overflow then shift - 1 else shift
      let str := if overflow then strTake str0 significantDigits else str0
      if shift' > 0 then
        sign ++ "0." ++ zeros (shift' - 1) ++ str
      else
        let totalDecimalPlaces : Int :=
          (shift' : Int) + (significantDigits : Int) - 1
        let decimalPos : Int := (str.length : Int) - totalDecimalPlaces
        if decimalPos ≤ 0 then
          sign ++ "0." ++ zeros (-decimalPos).toNat ++ str
        else if decimalPos ≥ (str.length : Int) then
          sign ++ str ++ zeros (decimalPos - (str.length : Int)).toNat
        else
          sign ++ strTake str decimalPos.toNat ++ "." ++ strDrop str decimalPos.toNat
    else
      let nStr := Nat.repr num
      let dStr := Nat.repr den
      let intDigits0 : Int := (nStr.length : Int) - (dStr.length : Int)
      let scale0 := 10 ^ (max 0 intDigits0).toNat
      let intDigits : Int :=
        if num < den * scale0 then intDigits0 else intDigits0 + 1
      if intDigits < (significantDigits : Int) then
        let power := ((significantDigits : Int) - intDigits).toNat
        let n2 := num * 10 ^ power
        let quotient := (divideWithRounding (n2 : Int) (den : Int) rounding).toNat
        let str0 := Nat.repr quotient
        let decimalPos : Int := (str0.length : Int) - (power : Int)
        let str := if str0.length > significantDigits
          then strTake str0 significantDigits else str0
        if decimalPos ≥ (str.length : Int) then sign ++ str
        else sign ++ strTake str decimalPos.toNat ++ "." ++ strDrop str decimalPos.toNat
      else
        let power := (intDigits - (significantDigits : Int)).toNat
        let scaledD := den * 10 ^ power
        let quotient := (divideWithRounding (num : Int) (scaledD : Int) rounding).toNat
        let str := Nat.repr quotient
        sign ++ str ++ zeros power

/-- C9: round-half-up promotion across a power-of-ten boundary: the fraction
999/10 (= 99.9) rendered at 2 significant digits with ROUND_HALF_UP is "100",
not "99". -/
theorem C9_significant_boundary :
    toSignificant 999 10 2 .ROUND_HALF_UP = "100" ∧
    toSignificant 999 10 2 .ROUND_HALF_UP ≠ "99" := by
  constructor
  · decide
  · decide

/-- Typed SDK error (`CoralSwapSDKError` hierarchy of `src/errors.ts`):
machine-readable code, human message, and structured details rendered as
string key-value pairs in insertion order. -/
structure SDKError where
  code : String
  message : String
  details : List (String × String)
  deriving DecidableEq

/-- Raw non-typed failure observed by `mapError`: its message (JS
`err.message` or `String(err)`) and the optional `details.pairAddress` /
`details.pair` fields that `extractPairAddress` probes. -/
structure RawError where
  message : String
  detailsPairAddress : Option String
  detailsPair : Option String
  deriving DecidableEq

/-- Input of `mapError`: either an already-typed SDK error or a raw failure. -/
inductive RawErr
  | typed (e : SDKError)
  | plain (e : RawError)
  deriving DecidableEq

/-- ASCII lower-casing of a string (JS `toLowerCase` on the ASCII messages the
classifier handles). -/
def lowerStr (s : String) : String := String.mk (s.toList.map Char.toLower)

def NetworkError (message : String) : SDKError :=
  ⟨"NETWORK_ERROR", message, []⟩

def RpcError (message : String) : SDKError :=
  ⟨"RPC_ERROR", message, []⟩

def SimulationError (message : String) : SDKError :=
  ⟨"SIMULATION_ERROR", message, []⟩

/-- The optional `txHash` constructor argument is always absent in the
classifier's calls and is not modelled. -/
def TransactionError (message : String) (details : List (String × String)) :
    SDKError :=
  ⟨"TRANSACTION_ERROR", message, details⟩

def DeadlineError (deadline : Nat) : SDKError :=
  ⟨"DEADLINE_EXCEEDED",
   "Transaction deadline exceeded (deadline: " ++ toString deadline ++ ")",
   [("deadline", toString deadline)]⟩

/-- `SlippageError`: the message comes from `additionalDetails.message` when
present and truthy, else the default template. -/
def SlippageError (expected actual toleranceBps : Nat)
    (additional : List (String × String)) : SDKError :=
  let template := "Slippage tolerance exceeded. Expected " ++ toString expected ++
    ", got " ++ toString actual ++ " (tolerance: " ++ toString toleranceBps ++ " bps)"
  let message := match additional.lookup "message" with
    | some m => if m = "" then template else m
    | none => template
  ⟨"SLIPPAGE_EXCEEDED", message,
   [("expected", toString expected), ("actual", toString actual),
    ("toleranceBps", toString toleranceBps)] ++ additional⟩

/-- `InsufficientLiquidityError`: message from `details.message` when present
and truthy, else the default template. -/
def InsufficientLiquidityError (pairAddress : String)
    (details : List (String × String)) : SDKError :=
  let template := "Insufficient liquidity for pair " ++ pairAddress
  let message := match details.lookup "message" with
    | some m => if m = "" then template else m
    | none => template
  ⟨"INSUFFICIENT_LIQUIDITY", message, ("pairAddress", pairAddress) :: details⟩

def PairNotFoundError (tokenA tokenB : String) : SDKError :=
  ⟨"PAIR_NOT_FOUND", "Pair not found for tokens " ++ tokenA ++ " / " ++ tokenB,
   [("tokenA", tokenA), ("tokenB", tokenB)]⟩

def ValidationError (message : String) (details : List (String × String)) :
    SDKError :=
  ⟨"VALIDATION_ERROR", message, details⟩

def FlashLoanError (message : String) : SDKError :=
  ⟨"FLASH_LOAN_ERROR", message, []⟩

def CircuitBreakerError (pairAddress : String) : SDKError :=
  ⟨"CIRCUIT_BREAKER", "Pool is paused for pair " ++ pairAddress,
   [("pairAddress", pairAddress)]⟩

def SignerError : SDKError :=
  ⟨"NO_SIGNER",
   "No signing key configured. Provide secretKey in config or use external signing.",
   []⟩

/-- Case-insensitive literal prefix match on character lists; returns the
remainder after the matched literal. -/
def ciPrefix : List Char → List Char → Option (List Char)
  | [], s => some s
  | _, [] => none
  | p :: ps, c :: cs => if p.toLower == c.toLower then ciPrefix ps cs else none

/-- Greedy whitespace skip (regex `\s*` over the ASCII whitespace the
messages contain). -/
def skipWs : List Char → List Char
  | [] => []
  | c :: cs =>
    if c = ' ' ∨ c = '\t' ∨ c = '\n' ∨ c = '\r' then skipWs cs else c :: cs

/-- Greedy digit run (regex `\d+`): the digits and the remainder. -/
def takeDigits : List Char → List Char × List Char
  | [] => ([], [])
  | c :: cs =>
    if c.isDigit then
      let r := takeDigits cs
      (c :: r.1, r.2)
    else ([], c :: cs)

/-- Numeric value of a digit run (JS `parseInt`/`BigInt` of the capture). -/
def digitsVal (ds : List Char) : Nat :=
  ds.foldl (fun a c => a * 10 + (c.toNat - 48)) 0

/-- Scanner for the regex `/Error\(Contract,\s*#?([0-9]+)\)/i` of
`ErrorParser.extractErrorCode`: leftmost occurrence of the literal (case
insensitively), optional whitespace, optional `#`, at least one digit,
closing parenthesis.  The character classes of consecutive regex parts are
disjoint, so greedy matching without backtracking is exact. -/
def matchContractCode : List Char → Option Nat
  | [] => none
  | c :: cs =>
    match ciPrefix "Error(Contract,".toList (c :: cs) with
    | some rest =>
      let rest1 := skipWs rest
      let rest2 := match rest1 with
        | '#' :: t => t
        | _ => rest1
      let r := takeDigits rest2
      if r.1.isEmpty then matchContractCode cs
      else match r.2 with
        | ')' :: _ => some (digitsVal r.1)
        | _ => matchContractCode cs
    | none => matchContractCode cs

/-- Numeric contract error code in a raw message,
`ErrorParser.extractErrorCode` (src/unnamed sources, `errors/parser.ts`); an
empty message yields `none` as in the source. -/
def extractErrorCode (message : String) : Option Nat :=
  matchContractCode message.toList

/-- Pair contract error messages (`PAIR_ERROR_MAP`). -/
def pairErrorMap (code : Nat) : Option String :=
  match code with
  | 100 => some "Pair already initialized"
  | 101 => some "Zero address provided"
  | 102 => some "Identical tokens provided"
  | 103 => some "Insufficient liquidity minted"
  | 104 => some "Insufficient liquidity burned"
  | 105 => some "Insufficient output amount"
  | 106 => some "Insufficient liquidity in pool"
  | 107 => some "Invalid amount"
  | 108 => some "K invariant violated"
  | 109 => some "Insufficient input amount"
  | 110 => some "Contract is locked (reentrancy guard)"
  | 111 => some "Transaction expired (deadline exceeded)"
  | 112 => some "Constraint not met"
  | 113 => some "Invalid fee configuration"
  | _ => none

/-- Router contract error messages (`ROUTER_ERROR_MAP`). -/
def routerErrorMap (code : Nat) : Option String :=
  match code with
  | 200 => some "Router already initialized"
  | 201 => some "Invalid swap path"
  | 202 => some "Insufficient output amount"
  | 203 => some "Excessive input amount"
  | 204 => some "Expired deadline"
  | 205 => some "Insufficient liquidity"
  | 206 => some "Pair not found"
  | 207 => some "Identical tokens"
  | _ => none

/-- Factory contract error messages (`FACTORY_ERROR_MAP`). -/
def factoryErrorMap (code : Nat) : Option String :=
  match code with
  | 300 => some "Factory already initialized"
  | 301 => some "Unauthorized caller"
  | 302 => some "Pair already exists"
  | 303 => some "Zero address provided"
  | 304 => some "Invalid fee configuration"
  | _ => none

/-- Code range dispatch of `ErrorParser.parseContractError`. -/
def parseContractError (code : Nat) : Option String :=
  if 100 ≤ code ∧ code < 120 then pairErrorMap code
  else if 200 ≤ code ∧ code < 220 then routerErrorMap code
  else if 300 ≤ code ∧ code < 320 then factoryErrorMap code
  else none

/-- Greedy alphanumeric run (regex `[A-Z0-9]+` with the `i` flag). -/
def takeAlnum : List Char → List Char × List Char
  | [] => ([], [])
  | c :: cs =>
    if c.isAlphanum then
      let r := takeAlnum cs
      (c :: r.1, r.2)
    else ([], c :: cs)

/-- Scanner for the regex `/[CG][A-Z0-9]{47,55}/i` of `extractPairAddress`:
leftmost `C`/`G` (either case) followed by at least 47 alphanumerics, taking
greedily up to 55 of them. -/
def matchAddr : List Char → Option String
  | [] => none
  | c :: cs =>
    if c = 'C' ∨ c = 'G' ∨ c = 'c' ∨ c = 'g' then
      let run := (takeAlnum cs).1
      if 47 ≤ run.length then some (String.mk (c :: run.take 55))
      else matchAddr cs
    else matchAddr cs

/-- Pair address recovery, `extractPairAddress` from `src/errors.ts`:
`details.pairAddress`, then `details.pair`, then the first Stellar-address
pattern in the message, else "unknown". -/
def extractPairAddress (err : RawError) : String :=
  match err.detailsPairAddress with
  | some a => a
  | none =>
    match err.detailsPair with
    | some a => a
    | none =>
      match matchAddr err.message.toList with
      | some a => a
      | none => "unknown"

/-- Greedy `[:\s]*` skip. -/
def skipColonWs : List Char → List Char
  | [] => []
  | c :: cs =>
    if c = ':' ∨ c = ' ' ∨ c = '\t' ∨ c = '\n' ∨ c = '\r' then skipColonWs cs
    else c :: cs

/-- Greedy `[a-z]*` skip under the `i` flag (any ASCII letter). -/
def skipLetters : List Char → List Char
  | [] => []
  | c :: cs => if c.isAlpha then skipLetters cs else c :: cs

/-- Scanner for `/deadline[:\s]*[a-z]*[:\s]*(\d+)/i`: the consecutive
character classes are disjoint, so greedy matching is exact. -/
def matchDeadlineNum : List Char → Option Nat
  | [] => none
  | c :: cs =>
    match ciPrefix "deadline".toList (c :: cs) with
    | some rest =>
      let r := takeDigits (skipColonWs (skipLetters (skipColonWs rest)))
      if r.1.isEmpty then matchDeadlineNum cs else some (digitsVal r.1)
    | none => matchDeadlineNum cs

/-- Scanner for `/word[:\s]*(\d+)/i` for a fixed literal word. -/
def matchWordNum (word : List Char) : List Char → Option Nat
  | [] => none
  | c :: cs =>
    match ciPrefix word (c :: cs) with
    | some rest =>
      let r := takeDigits (skipColonWs rest)
      if r.1.isEmpty then matchWordNum word cs else some (digitsVal r.1)
    | none => matchWordNum word cs

/-- Scanner for `/(?:got|actual)[:\s]*(\d+)/i`, trying the alternatives in
regex order at each position. -/
def matchGotActualNum : List Char → Option Nat
  | [] => none
  | c :: cs =>
    match ciPrefix "got".toList (c :: cs) with
    | some rest =>
      let r := takeDigits (skipColonWs rest)
      if r.1.isEmpty then
        match ciPrefix "actual".toList (c :: cs) with
        | some rest2 =>
          let r2 := takeDigits (skipColonWs rest2)
          if r2.1.isEmpty then matchGotActualNum cs else some (digitsVal r2.1)
        | none => matchGotActualNum cs
      else some (digitsVal r.1)
    | none =>
      match ciPrefix "actual".toList (c :: cs) with
      | some rest2 =>
        let r2 := takeDigits (skipColonWs rest2)
        if r2.1.isEmpty then matchGotActualNum cs else some (digitsVal r2.1)
      | none => matchGotActualNum cs

/-- Contract-code dispatch `mapContractError` from `src/errors.ts`: the fixed
code-to-kind table (unmapped codes yield `none` and fall through to the
substring heuristics).  Where the source stores the possibly-null map message
in the details, the model stores it only when present (all dispatched codes
are present in the maps). -/
def mapContractError (code : Nat) (err : RawError) : Option SDKError :=
  let message := parseContractError code
  let msgDetail : List (String × String) := match message with
    | some m => [("message", m)]
    | none => []
  match code with
  | 100 => some (ValidationError (message.getD "Already initialized")
      [("contractErrorCode", toString code)])
  | 101 => some (ValidationError (message.getD "Zero address")
      [("contractErrorCode", toString code)])
  | 102 => some (ValidationError (message.getD "Identical tokens")
      [("contractErrorCode", toString code)])
  | 103 => some (InsufficientLiquidityError (extractPairAddress err)
      ([("contractErrorCode", toString code)] ++ msgDetail))
  | 104 => some (InsufficientLiquidityError (extractPairAddress err)
      ([("contractErrorCode", toString code)] ++ msgDetail))
  | 106 => some (InsufficientLiquidityError (extractPairAddress err)
      ([("contractErrorCode", toString code)] ++ msgDetail))
  | 105 => some (SlippageError 0 0 0
      ([("contractErrorCode", toString code)] ++ msgDetail))
  | 107 => some (ValidationError (message.getD "Invalid amount")
      [("contractErrorCode", toString code)])
  | 109 => some (ValidationError (message.getD "Invalid amount")
      [("contractErrorCode", toString code)])
  | 108 => some (ValidationError (message.getD "K invariant violated")
      [("contractErrorCode", toString code)])
  | 110 => some (TransactionError (message.getD "Contract locked")
      [("contractErrorCode", toString code)])
  | 111 => some (DeadlineError 0)
  | 112 => some (ValidationError (message.getD "Constraint not met")
      [("contractErrorCode", toString code)])
  | 113 => some (ValidationError (message.getD "Constraint not met")
      [("contractErrorCode", toString code)])
  | 201 => some (ValidationError (message.getD "Invalid swap path")
      [("contractErrorCode", toString code)])
  | 202 => some (SlippageError 0 0 0
      ([("contractErrorCode", toString code)] ++ msgDetail))
  | 203 => some (SlippageError 0 0 0
      ([("contractErrorCode", toString code)] ++ msgDetail))
  | 204 => some (DeadlineError 0)
  | 205 => some (InsufficientLiquidityError (extractPairAddress err)
      ([("contractErrorCode", toString code)] ++ msgDetail))
  | 206 => some (PairNotFoundError "unknown" "unknown")
  | 300 => some (PairNotFoundError "unknown" "unknown")
  | _ => none

/-- Heuristic: deadline (`message.includes("EXPIRED") ||
normalized.includes("deadline")`). -/
def condDeadline (raw : RawError) : Bool :=
  includesStr raw.message "EXPIRED" || includesStr (lowerStr raw.message) "deadline"

/-- Heuristic: slippage. -/
def condSlippage (raw : RawError) : Bool :=
  includesStr (lowerStr raw.message) "slippage" ||
  includesStr raw.message "INSUFFICIENT_OUTPUT"

/-- Heuristic: liquidity. -/
def condLiquidity (raw : RawError) : Bool :=
  includesStr (lowerStr raw.message) "liquidity" ||
  includesStr raw.message "INSUFFICIENT_LIQUIDITY"

/-- Heuristic: circuit breaker / paused pool. -/
def condCircuit (raw : RawError) : Bool :=
  includesStr (lowerStr raw.message) "circuit" ||
  includesStr (lowerStr raw.message) "paused"

/-- Heuristic: network connectivity codes. -/
def condNetwork (raw : RawError) : Bool :=
  includesStr raw.message "ECONNRESET" || includesStr raw.message "ETIMEDOUT" ||
  includesStr raw.message "ENOTFOUND" || includesStr raw.message "ENETUNREACH"

/-- Heuristic: RPC rate limiting. -/
def condRpc (raw : RawError) : Bool :=
  includesStr (lowerStr raw.message) "rate limit" ||
  includesStr (lowerStr raw.message) "too many requests" ||
  includesStr raw.message "RPC" || includesStr raw.message "429"

/-- Heuristic: signing. -/
def condSigner (raw : RawError) : Bool :=
  includesStr (lowerStr raw.message) "signing" ||
  includesStr (lowerStr raw.message) "signer" ||
  includesStr raw.message "NO_SIGNER" ||
  includesStr (lowerStr raw.message) "private key"

/-- Heuristic: flash loans. -/
def condFlash (raw : RawError) : Bool :=
  includesStr (lowerStr raw.message) "flash loan" ||
  includesStr (lowerStr raw.message) "flash_loan" ||
  includesStr (lowerStr raw.message) "reentrancy" ||
  includesStr (lowerStr raw.message) "callback"

/-- Heuristic: validation. -/
def condValidation (raw : RawError) : Bool :=
  (includesStr (lowerStr raw.message) "invalid" &&
    !includesStr (lowerStr raw.message) "active") ||
  includesStr (lowerStr raw.message) "validation" ||
  includesStr (lowerStr raw.message) "required" ||
  includesStr (lowerStr raw.message) "must be"

/-- Heuristic: pair not found. -/
def condPairNotFound (raw : RawError) : Bool :=
  includesStr (lowerStr raw.message) "pair not found" ||
  includesStr (lowerStr raw.message) "no pair" ||
  includesStr raw.message "PAIR_NOT_FOUND"

/-- Heuristic: simulation. -/
def condSimulation (raw : RawError) : Bool :=
  includesStr (lowerStr raw.message) "simulation" ||
  includesStr raw.message "SIMULATION_FAILED"

/-- Heuristic: transaction. -/
def condTransaction (raw : RawError) : Bool :=
  includesStr (lowerStr raw.message) "transaction" ||
  includesStr raw.message "TX_FAILED" ||
  includesStr (lowerStr raw.message) "tx failed"

/-- Substring-heuristic cascade of `mapError` (stage 3), in source order,
with the payload extraction of each branch. -/
def mapErrorHeuristics (raw : RawError) : SDKError :=
  let message := raw.message
  if condDeadline raw then
    DeadlineError ((matchDeadlineNum message.toList).getD 0)
  else if condSlippage raw then
    SlippageError ((matchWordNum "expected".toList message.toList).getD 0)
      ((matchGotActualNum message.toList).getD 0)
      ((matchWordNum "tolerance".toList message.toList).getD 0) []
  else if condLiquidity raw then
    InsufficientLiquidityError (extractPairAddress raw) []
  else if condCircuit raw then
    CircuitBreakerError (extractPairAddress raw)
  else if condNetwork raw then
    NetworkError message
  else if condRpc raw then
    RpcError message
  else if condSigner raw then
    SignerError
  else if condFlash raw then
    FlashLoanError message
  else if condValidation raw then
    ValidationError message []
  else if condPairNotFound raw then
    PairNotFoundError "unknown" "unknown"
  else if condSimulation raw then
    SimulationError message
  else if condTransaction raw then
    TransactionError message []
  else
    ⟨"UNKNOWN_ERROR", message, [("originalError", message)]⟩

/-- Disjunction of the twelve substring heuristics. -/
def heuristicMatches (raw : RawError) : Bool :=
  condDeadline raw || condSlippage raw || condLiquidity raw || condCircuit raw ||
  condNetwork raw || condRpc raw || condSigner raw || condFlash raw ||
  condValidation raw || condPairNotFound raw || condSimulation raw ||
  condTransaction raw

/-- Error classifier `mapError` from `src/errors.ts`: (1) typed errors pass
through unchanged; (2) a numeric contract code in the message dispatches
through the fixed code table; (3) otherwise the substring heuristics decide;
(4) default `UNKNOWN_ERROR` preserving the message and the raw error. -/
def mapError (err : RawErr) : SDKError :=
  match err with
  | .typed e => e
  | .plain raw =>
    match extractErrorCode raw.message with
    | some code =>
      match mapContractError code raw with
      | some mapped => mapped
      | none => mapErrorHeuristics raw
    | none => mapErrorHeuristics raw

/-- Helper: when no heuristic fires, the cascade falls to the Unknown kind
preserving the message and the raw error. -/
theorem mapErrorHeuristics_none (raw : RawError)
    (h : heuristicMatches raw = false) :
    mapErrorHeuristics raw =
      ⟨"UNKNOWN_ERROR", raw.message, [("originalError", raw.message)]⟩ := by
  unfold heuristicMatches at h
  simp only [Bool.or_eq_false_iff] at h
  obtain ⟨⟨⟨⟨⟨⟨⟨⟨⟨⟨⟨h1, h2⟩, h3⟩, h4⟩, h5⟩, h6⟩, h7⟩, h8⟩, h9⟩, h10⟩, h11⟩, h12⟩ := h
  unfold mapErrorHeuristics
  simp only [h1, h2, h3, h4, h5, h6, h7, h8, h9, h10, h11, h12,
    Bool.false_eq_true, if_false]

/-- C8: `mapError` classifies by a fixed first-match-wins order: an
already-typed error is returned unchanged; a numeric contract code found in
the message and present in the fixed table decides the kind regardless of any
substring heuristic; otherwise the heuristic cascade decides; and when
nothing matches the result is the UNKNOWN_ERROR kind preserving the original
message and the raw error in its details.  The concrete instance shows the
table overriding a matching "deadline" substring. -/
theorem C8_map_error_order :
    (∀ e, mapError (.typed e) = e) ∧
    (∀ raw code mapped, extractErrorCode raw.message = some code →
      mapContractError code raw = some mapped →
      mapError (.plain raw) = mapped) ∧
    (∀ raw,
      (match extractErrorCode raw.message with
        | some code => mapContractError code raw = none
        | none => True) →
      mapError (.plain raw) = mapErrorHeuristics raw) ∧
    (∀ raw, extractErrorCode raw.message = none → heuristicMatches raw = false →
      mapError (.plain raw) =
        ⟨"UNKNOWN_ERROR", raw.message, [("originalError", raw.message)]⟩) ∧
    mapError (.plain ⟨"Error(Contract, #110) deadline", none, none⟩) =
      TransactionError "Contract is locked (reentrancy guard)"
        [("contractErrorCode", "110")] ∧
    condDeadline ⟨"Error(Contract, #110) deadline", none, none⟩ = true := by
  refine ⟨fun e => rfl, ?_, ?_, ?_, by decide, by decide⟩
  · intro raw code mapped hcode hmapped
    simp only [mapError, hcode, hmapped]
  · intro raw hfall
    cases hcode : extractErrorCode raw.message with
    | none => simp only [mapError, hcode]
    | some code =>
      rw [hcode] at hfall
      simp only [mapError, hcode, hfall]
  · intro raw hcode hheur
    simp only [mapError, hcode]
    exact mapErrorHeuristics_none raw hheur

/-- C8 witness: pass-through, table dispatch and Unknown preservation at
concrete inputs. -/
theorem C8_map_error_order_witness :
    mapError (.typed SignerError) = SignerError ∧
    mapError (.plain ⟨"HostError: Error(Contract, #111)", none, none⟩) =
      DeadlineError 0 ∧
    mapError (.plain ⟨"gibberish 42", none, none⟩) =
      ⟨"UNKNOWN_ERROR", "gibberish 42", [("originalError", "gibberish 42")]⟩ := by
  refine ⟨C8_map_error_order.1 SignerError, ?_, ?_⟩
  · exact C8_map_error_order.2.1 ⟨"HostError: Error(Contract, #111)", none, none⟩
      111 (DeadlineError 0) (by decide) (by decide)
  · exact C8_map_error_order.2.2.2.1 ⟨"gibberish 42", none, none⟩
      (by decide) (by decide)
